import Mathlib

/-!
Shallow embedding of the appengine-go datastore entity codec
(src/appengine/datastore/save.go and the load half of src/unnamed/part_003),
together with the support declarations (Property, structCodec, Key,
maxIndexedProperties) whose defining file is not among the available sources;
those are modelled from the spec and marked as such.

Go channels between producer and consumer become Lean lists (the bounded
channel only buffers; the drain discipline makes the sequential composition
observably equivalent).  Go machine integers become Int with explicit range
checks where the code checks overflow.  Go float64 values are carried
opaquely (the codec never computes with them).
-/

namespace Datastore

/-- Opaque carrier for a Go float64 value.  The codec only copies floats, so
the payload is represented by its bit pattern. -/
structure GoFloat where
  bits : Nat
deriving DecidableEq, Repr

/-- Modelled from the spec: Key is a hierarchical identifier, a path of
(kind, id | name) elements with an optional parent (key.go is not among the
available sources).  The root constructor is a key with nil parent. -/
inductive Key where
  | root (kind : String) (stringID : String) (intID : Int)
  | child (kind : String) (stringID : String) (intID : Int) (parent : Key)
deriving DecidableEq, Repr

/-- key.root(): follow the parent chain to the EntityGroup root. -/
def Key.rootKey : Key → Key
  | .root k s i => .root k s i
  | .child _ _ _ p => p.rootKey

/-- True when the key has a nil parent (key.parent == nil in the source). -/
def Key.parentIsNil : Key → Bool
  | .root _ _ _ => true
  | .child _ _ _ _ => false

/-- One element of a wire key path. -/
structure PathElem where
  kind : String
  id : Int
  name : String
deriving DecidableEq, Repr

/-- The wire path of a key, root element first. -/
def Key.path : Key → List PathElem
  | .root k s i => [⟨k, i, s⟩]
  | .child k s i p => p.path ++ [⟨k, i, s⟩]

/-- Modelled from the spec: pb.Reference, the wire form of a key
(app_id plus path). -/
structure Reference where
  app : String
  path : List PathElem
deriving DecidableEq, Repr

/-- Modelled from the spec: keyToProto (key.go is not among the available
sources) serialises a key as a Reference under the default app id. -/
def keyToProto (defaultAppID : String) (k : Key) : Reference :=
  ⟨defaultAppID, k.path⟩

/-- Modelled from the spec: keyToReferenceValue, the wire form of a
key-valued property. -/
def keyToReferenceValue (defaultAppID : String) (k : Key) : Reference :=
  keyToProto defaultAppID k

/-- Modelled from the spec: referenceValueToKey resolves a wire Reference
back into a Key, failing on an empty path. -/
def referenceValueToKey (r : Reference) : Except String Key :=
  match r.path with
  | [] => .error "datastore: invalid key reference"
  | e :: es =>
    .ok (es.foldl (fun k el => Key.child el.kind el.name el.id k)
      (Key.root e.kind e.name e.id))

/-- pb.Property_Meaning: the meaning tags the codec uses. -/
inductive Meaning where
  | blob
  | blobkey
  | gdWhen
deriving DecidableEq, Repr

/-- pb.PropertyValue: at most one variant is populated (each field is a
pointer in the source, hence Option here). -/
structure PropertyValue where
  int64Value : Option Int := none
  booleanValue : Option Bool := none
  stringValue : Option String := none
  doubleValue : Option GoFloat := none
  referencevalue : Option Reference := none
deriving DecidableEq, Repr

/-- pb.Property: a named wire property. Optional fields are pointers in the
source protobuf struct. -/
structure PbProperty where
  name : Option String
  value : PropertyValue
  meaning : Option Meaning := none
  multiple : Option Bool := none
deriving DecidableEq, Repr

/-- proto.GetString: dereference with default "". -/
def getString (o : Option String) : String := o.getD ""

/-- proto.GetBool: dereference with default false. -/
def getBool (o : Option Bool) : Bool := o.getD false

/-- pb.EntityProto: key, entity group, indexed properties, raw properties. -/
structure EntityProto where
  key : Reference
  entityGroup : List PathElem
  property : List PbProperty := []
  rawProperty : List PbProperty := []
deriving DecidableEq, Repr

/-- Modelled from the spec: the value universe of the in-memory Property
(its Value field has type interface \x7b\x7d in prop.go, which is not among
the available sources; the variants are exactly those the switch statements
in save.go and the load file handle).  The invalid constructor stands for
any dynamic type outside the supported universe, including a nil interface. -/
inductive PropValue where
  | int64 (v : Int)
  | bool (b : Bool)
  | string (s : String)
  | double (d : GoFloat)
  | key (k : Option Key)
  | time (t : Int)
  | blobKey (s : String)
  | bytes (b : String)
  | invalid (typeName : String)
deriving DecidableEq, Repr

/-- Modelled from the spec: the in-memory Property streamed between producer
and consumer (prop.go is not among the available sources; the fields are
exactly those save.go and the load file read and write). -/
structure Property where
  name : String
  value : PropValue
  noIndex : Bool := false
  multiple : Bool := false
deriving DecidableEq, Repr

/-- Modelled from the spec: the configured indexed-property limit
("e.g. 20,000"); its defining constant is not among the available sources. -/
def maxIndexedProperties : Nat := 20000

def nilKeyErrStr : String := "nil key"

/-! ## Streaming encoder: propertiesToProto (save.go lines 240-310) -/

/-- The mutable state of the propertiesToProto loop: the entity's two
property lists plus the prevMultiple map (an association list here). -/
structure EncState where
  property : List PbProperty := []
  rawProperty : List PbProperty := []
  prevMultiple : List (String × Bool) := []
deriving DecidableEq, Repr

/-- The multiplicity-consistency error message of propertiesToProto. -/
def multipleErrMsg (n : String) : String :=
  "datastore: multiple Properties with Name \"" ++ n ++ "\", but Multiple is false"

/-- The switch statement on p.Value inside propertiesToProto: convert one
in-memory value to a wire PropertyValue plus meaning.  A nil Key returns
none (the source executes continue).  A []byte value must be unindexed. -/
def propValueToPb (defaultAppID : String) (name : String) (noIndex : Bool) :
    PropValue → Except String (Option (PropertyValue × Option Meaning))
  | .int64 v => .ok (some ({ int64Value := some v }, none))
  | .bool b => .ok (some ({ booleanValue := some b }, none))
  | .string s => .ok (some ({ stringValue := some s }, none))
  | .double d => .ok (some ({ doubleValue := some d }, none))
  | .key none => .ok none
  | .key (some k) =>
    .ok (some ({ referencevalue := some (keyToReferenceValue defaultAppID k) }, none))
  | .time t => .ok (some ({ int64Value := some t }, some .gdWhen))
  | .blobKey s => .ok (some ({ stringValue := some s }, some .blobkey))
  | .bytes b =>
    if noIndex then .ok (some ({ stringValue := some b }, some .blob))
    else .error ("datastore: cannot index a []byte valued Property with Name \"" ++ name ++ "\"")
  | .invalid _ =>
    .error ("datastore: invalid Value type for a Property with Name \"" ++ name ++ "\"")

/-- The body of one propertiesToProto iteration after the multiplicity
check, with the already-updated prevMultiple map. -/
def encStepBody (defaultAppID : String) (st : EncState)
    (prev : List (String × Bool)) (p : Property) : Except String EncState :=
  match propValueToPb defaultAppID p.name p.noIndex p.value with
  | .error e => .error e
  | .ok none => .ok { st with prevMultiple := prev }
  | .ok (some (pv, m)) =>
    let x : PbProperty :=
      { name := some p.name, value := pv, meaning := m, multiple := some p.multiple }
    if p.noIndex then
      .ok { st with rawProperty := st.rawProperty ++ [x], prevMultiple := prev }
    else
      let props := st.property ++ [x]
      if props.length > maxIndexedProperties then
        .error "datastore: too many indexed properties"
      else
        .ok { st with property := props, prevMultiple := prev }

/-- One iteration of the propertiesToProto receive loop. -/
def encStep (defaultAppID : String) (st : EncState) (p : Property) :
    Except String EncState :=
  match st.prevMultiple.lookup p.name with
  | some pm =>
    if !pm || !p.multiple then .error (multipleErrMsg p.name)
    else encStepBody defaultAppID st st.prevMultiple p
  | none => encStepBody defaultAppID st ((p.name, p.multiple) :: st.prevMultiple) p

/-- The propertiesToProto receive loop over the whole (drained) channel. -/
def encLoop (defaultAppID : String) (st : EncState) :
    List Property → Except String EncState
  | [] => .ok st
  | p :: ps =>
    match encStep defaultAppID st p with
    | .error e => .error e
    | .ok st2 => encLoop defaultAppID st2 ps

/-- The entity group path: empty if the key itself is root, else the wire
path of the root of the ancestor chain. -/
def entityGroupOf (defaultAppID : String) (key : Key) : List PathElem :=
  if key.parentIsNil then [] else (keyToProto defaultAppID key.rootKey).path

/-- propertiesToProto: consume a stream of Property values into an
EntityProto, enforcing multiplicity consistency, the []byte indexing rule
and the indexed-property limit. -/
def propertiesToProto (defaultAppID : String) (key : Key)
    (src : List Property) : Except String EntityProto :=
  match encLoop defaultAppID {} src with
  | .error e => .error e
  | .ok st =>
    .ok { key := keyToProto defaultAppID key
          entityGroup := entityGroupOf defaultAppID key
          property := st.property
          rawProperty := st.rawProperty }

/-! ## Host value universe (reflect.Value as the codec observes it) -/

/-- The static Go types the codec distinguishes.  intT carries the bit width
of the sized integer kinds (64 for int, 8/16/32 for int8/int16/int32);
int64T is the separate Kind Int64, which also accepts Time values on load. -/
inductive FieldType where
  | int64T
  | intT (w : Nat)
  | timeT
  | boolT
  | stringT
  | blobKeyT
  | doubleT
  | keyT
  | bytesT
  | sliceT (t : FieldType)
  | unsupportedT (typeName : String)
deriving DecidableEq, Repr

/-- The string reflect's Type formatting produces for each type (used in
error messages). -/
def goTypeName : FieldType → String
  | .int64T => "int64"
  | .intT 8 => "int8"
  | .intT 16 => "int16"
  | .intT 32 => "int32"
  | .intT _ => "int"
  | .timeT => "datastore.Time"
  | .boolT => "bool"
  | .stringT => "string"
  | .blobKeyT => "appengine.BlobKey"
  | .doubleT => "float64"
  | .keyT => "*datastore.Key"
  | .bytesT => "[]uint8"
  | .sliceT t => "[]" ++ goTypeName t
  | .unsupportedT tn => tn

/-- A dynamically-typed Go value in the codec's universe (a reflect.Value):
scalars, a possibly-nil Key pointer, a byte slice, a typed slice, or
anything else (unsupported). -/
inductive GoVal where
  | int64 (v : Int)
  | intW (w : Nat) (v : Int)
  | time (v : Int)
  | bool (b : Bool)
  | string (s : String)
  | blobKey (s : String)
  | double (d : GoFloat)
  | key (k : Option Key)
  | bytes (b : String)
  | slice (t : FieldType) (xs : List GoVal)
  | unsupported (typeName : String)

/-- reflect's v.Type() for a value of this universe. -/
def GoVal.type : GoVal → FieldType
  | .int64 _ => .int64T
  | .intW w _ => .intT w
  | .time _ => .timeT
  | .bool _ => .boolT
  | .string _ => .stringT
  | .blobKey _ => .blobKeyT
  | .double _ => .doubleT
  | .key _ => .keyT
  | .bytes _ => .bytesT
  | .slice t _ => .sliceT t
  | .unsupported tn => .unsupportedT tn

/-! ## Map-path encoder: valueToProto / nvToProto / saveMap
(save.go lines 20-147) -/

/-- valueToProto: convert one named value to a wire property.  The error
string is empty on success in the source; here the error side of Except
carries it (nilKeyErrStr for a nil Key, or the unsupported-type message). -/
def valueToProto (defaultAppID : String) (name : String) (v : GoVal)
    (multiple : Bool) : Except String PbProperty :=
  let pvE : Except String (PropertyValue × Option Meaning) :=
    match v with
    | .int64 x => .ok ({ int64Value := some x }, none)
    | .intW _ x => .ok ({ int64Value := some x }, none)
    | .time x => .ok ({ int64Value := some x }, some .gdWhen)
    | .bool b => .ok ({ booleanValue := some b }, none)
    | .string s => .ok ({ stringValue := some s }, none)
    | .blobKey s => .ok ({ stringValue := some s }, some .blobkey)
    | .double d => .ok ({ doubleValue := some d }, none)
    | .key none => .error nilKeyErrStr
    | .key (some k) =>
      .ok ({ referencevalue := some (keyToReferenceValue defaultAppID k) }, none)
    | .bytes b => .ok ({ stringValue := some b }, some .blob)
    | .slice t _ =>
      .error ("unsupported datastore value type: " ++ goTypeName (.sliceT t))
    | .unsupported tn => .error ("unsupported datastore value type: " ++ tn)
  match pvE with
  | .error e => .error e
  | .ok (pv, m) =>
    .ok { name := some name, value := pv, meaning := m, multiple := some multiple }

/-- addProperty: append the wire property to the raw list when the source
value is a []byte, to the indexed list otherwise. -/
def addProperty (e : EntityProto) (propProto : PbProperty) (propValue : GoVal) :
    EntityProto :=
  if propValue.type = .bytesT then
    { e with rawProperty := e.rawProperty ++ [propProto] }
  else
    { e with property := e.property ++ [propProto] }

/-- nameValue: a string name paired with a value. -/
structure NameValue where
  name : String
  value : GoVal

/-- The "cannot store field" error wrapper of nvToProto. -/
def nvErrMsg (name typeName errStr : String) : String :=
  "datastore: cannot store field named \"" ++ name ++ "\" from a \"" ++
    typeName ++ "\": " ++ errStr

/-- The inner loop of nvToProto over the elements of a slice-valued entry:
each element becomes a multiple-valued property; a nil Key element is
skipped. -/
def nvSliceLoop (defaultAppID typeName name : String) (e : EntityProto) :
    List GoVal → Except String EntityProto
  | [] => .ok e
  | elem :: elems =>
    match valueToProto defaultAppID name elem true with
    | .error errStr =>
      if errStr = nilKeyErrStr then nvSliceLoop defaultAppID typeName name e elems
      else .error (nvErrMsg name typeName errStr)
    | .ok property =>
      nvSliceLoop defaultAppID typeName name (addProperty e property elem) elems

/-- The outer loop of nvToProto over the name/value entries. -/
def nvLoop (defaultAppID typeName : String) (e : EntityProto) :
    List NameValue → Except String EntityProto
  | [] => .ok e
  | x :: rest =>
    -- isBlob := x.value.Type() == typeOfByteSlice; the slice branch runs
    -- when the value's Kind is Slice and it is not a []byte.  A []byte is
    -- the separate bytes constructor here, so matching the slice
    -- constructor is exactly that condition.
    match x.value with
    | .slice _ elems =>
      match nvSliceLoop defaultAppID typeName x.name e elems with
      | .error s => .error s
      | .ok e2 => nvLoop defaultAppID typeName e2 rest
    | _ =>
      match valueToProto defaultAppID x.name x.value false with
      | .error errStr =>
        if errStr = nilKeyErrStr then nvLoop defaultAppID typeName e rest
        else .error (nvErrMsg x.name typeName errStr)
      | .ok property =>
        nvLoop defaultAppID typeName (addProperty e property x.value) rest

/-- nvToProto: convert a list of name/value pairs to an EntityProto; the
indexed-property limit is checked once, after the loop. -/
def nvToProto (defaultAppID : String) (key : Key) (typeName : String)
    (nv : List NameValue) : Except String EntityProto :=
  let e0 : EntityProto :=
    { key := keyToProto defaultAppID key
      entityGroup := entityGroupOf defaultAppID key }
  match nvLoop defaultAppID typeName e0 nv with
  | .error s => .error s
  | .ok e =>
    if e.property.length > maxIndexedProperties then
      .error "datastore: too many indexed properties"
    else .ok e

/-- Modelled from the spec: the Map host value is an open mapping from
property name to dynamic value; as in the source's range over the Go map,
one iteration order is fixed here by the association-list representation. -/
abbrev DsMap := List (String × GoVal)

/-- saveMap: convert an entity Map to an EntityProto via nvToProto. -/
def saveMap (defaultAppID : String) (key : Key) (m : DsMap) :
    Except String EntityProto :=
  nvToProto defaultAppID key "datastore.Map" (m.map fun kv => ⟨kv.1, kv.2⟩)

/-! ## Struct-path encoder: saveStructProperty / structPLS.Save
(save.go lines 175-238) -/

/-- Modelled from the spec: one entry of structCodec.byIndex — the property
name for the field (after rename mapping, "-" when ignored), the unindexed
directive, whether reflect can set the field (CanSet), and the field's
static type (prop.go, where the codec is built, is not among the available
sources; the fields are those save.go and the load file consult). -/
structure FieldCodec where
  name : String
  noIndex : Bool
  settable : Bool
  ftype : FieldType
deriving DecidableEq, Repr

/-- Modelled from the spec: the per-record-type descriptor: field list in
declared order plus the record type's printed name (s.v.Type()). -/
structure StructCodec where
  typeName : String
  byIndex : List FieldCodec
deriving DecidableEq, Repr

/-- First index of a field with the given property name. -/
def findFieldIdx (n : String) : List FieldCodec → Option Nat
  | [] => none
  | f :: fs => if f.name == n then some 0 else (findFieldIdx n fs).map (· + 1)

/-- Modelled from the spec: structCodec.byName maps a property name to the
field slot of that name. -/
def StructCodec.byName (c : StructCodec) (n : String) : Option Nat :=
  findFieldIdx n c.byIndex

/-- saveStructProperty: build the Property for one field (or slice element)
and hand it to the consumer; a nil Key produces nothing (ok none); a value
outside the universe is a fatal error; []byte values force NoIndex. -/
def saveStructProperty (name : String) (noIndex multiple : Bool) (v : GoVal) :
    Except String (Option Property) :=
  match v with
  | .key none => .ok none
  | .key (some k) =>
    .ok (some { name := name, value := .key (some k), noIndex := noIndex, multiple := multiple })
  | .time t =>
    .ok (some { name := name, value := .time t, noIndex := noIndex, multiple := multiple })
  | .blobKey s =>
    .ok (some { name := name, value := .blobKey s, noIndex := noIndex, multiple := multiple })
  | .bytes b =>
    .ok (some { name := name, value := .bytes b, noIndex := true, multiple := multiple })
  | .int64 x =>
    .ok (some { name := name, value := .int64 x, noIndex := noIndex, multiple := multiple })
  | .intW _ x =>
    .ok (some { name := name, value := .int64 x, noIndex := noIndex, multiple := multiple })
  | .bool b =>
    .ok (some { name := name, value := .bool b, noIndex := noIndex, multiple := multiple })
  | .string s =>
    .ok (some { name := name, value := .string s, noIndex := noIndex, multiple := multiple })
  | .double d =>
    .ok (some { name := name, value := .double d, noIndex := noIndex, multiple := multiple })
  | .slice t _ =>
    .error ("datastore: unsupported struct field type: " ++ goTypeName (.sliceT t))
  | .unsupported tn =>
    .error ("datastore: unsupported struct field type: " ++ tn)

/-- The inner loop of structPLS.Save over a non-[]byte slice field's
elements: each element is saved as a multiple-valued property. -/
def saveSliceElems (name : String) (noIndex : Bool) :
    List GoVal → Except String (List Property)
  | [] => .ok []
  | e :: es =>
    match saveStructProperty name noIndex true e with
    | .error s => .error s
    | .ok none => saveSliceElems name noIndex es
    | .ok (some p) =>
      match saveSliceElems name noIndex es with
      | .error s => .error s
      | .ok ps => .ok (p :: ps)

/-- structPLS.Save: iterate the fields in declared order, skipping ignored
("-") and non-settable fields; a non-[]byte slice field emits one
multiple-valued property per element, everything else one single-valued
property.  The produced channel contents are the returned list. -/
def structSaveLoop : List (FieldCodec × GoVal) → Except String (List Property)
  | [] => .ok []
  | (t, v) :: rest =>
    if t.name = "-" then structSaveLoop rest
    else if !t.settable then structSaveLoop rest
    else
      match v with
      | .slice _ xs =>
        -- v.Kind() == Slice and v.Type() != typeOfByteSlice: a []byte value
        -- is the separate bytes constructor here, so any slice value takes
        -- this branch, as in the source.
        match saveSliceElems t.name t.noIndex xs with
        | .error s => .error s
        | .ok ps =>
          match structSaveLoop rest with
          | .error s => .error s
          | .ok qs => .ok (ps ++ qs)
      | _ =>
        match saveStructProperty t.name t.noIndex false v with
        | .error s => .error s
        | .ok none =>
          structSaveLoop rest
        | .ok (some p) =>
          match structSaveLoop rest with
          | .error s => .error s
          | .ok qs => .ok (p :: qs)

/-- structPLS.Save on a record given by its codec and field values. -/
def structSave (codec : StructCodec) (vals : List GoVal) :
    Except String (List Property) :=
  structSaveLoop (codec.byIndex.zip vals)

/-- saveEntity on a struct source: run the struct's Save producer and feed
the stream into propertiesToProto (the source runs them concurrently over a
bounded channel with a drain discipline; a producer error wins, which the
sequential composition reproduces). -/
def saveStructEntity (defaultAppID : String) (key : Key)
    (codec : StructCodec) (vals : List GoVal) : Except String EntityProto :=
  match structSave codec vals with
  | .error e => .error e
  | .ok props => propertiesToProto defaultAppID key props

/-! ## Decoder: protoToProperties (load file lines 369-425) -/

/-- The switch inside protoToProperties: inspect which wire variant is
populated (Int64, Boolean, String, Double, Reference, in source order) and
produce the in-memory value, refining by meaning.  No populated variant is
the internal wire-invariant error. -/
def pbValueToPropValue (x : PbProperty) : Except String PropValue :=
  match x.value.int64Value with
  | some v =>
    if x.meaning = some .gdWhen then .ok (.time v) else .ok (.int64 v)
  | none =>
  match x.value.booleanValue with
  | some b => .ok (.bool b)
  | none =>
  match x.value.stringValue with
  | some s =>
    if x.meaning = some .blob then .ok (.bytes s)
    else if x.meaning = some .blobkey then .ok (.blobKey s)
    else .ok (.string s)
  | none =>
  match x.value.doubleValue with
  | some d => .ok (.double d)
  | none =>
  match x.value.referencevalue with
  | some r =>
    match referenceValueToKey r with
    | .error e => .error e
    | .ok k => .ok (.key (some k))
  | none => .error "datastore: internal error: stored property has no value"

/-- One pushed Property of protoToProperties. -/
def pbToProperty (x : PbProperty) (noIndex : Bool) : Except String Property :=
  match pbValueToPropValue x with
  | .error e => .error e
  | .ok value =>
    .ok { name := getString x.name, value := value, noIndex := noIndex,
          multiple := getBool x.multiple }

/-- The producer loop of protoToProperties over one wire property list:
returns the properties pushed before an error stopped the producer, and the
error if one did. -/
def protoPropsLoop (noIndex : Bool) : List PbProperty → List Property × Option String
  | [] => ([], none)
  | x :: xs =>
    match pbToProperty x noIndex with
    | .error e => ([], some e)
    | .ok p =>
      let r := protoPropsLoop noIndex xs
      (p :: r.1, r.2)

/-- protoToProperties: push the indexed properties in order, then the raw
properties in order (with noIndex set); the second component is the value
sent on errc (none models the final errc <- nil). -/
def protoToProperties (src : EntityProto) : List Property × Option String :=
  let r := protoPropsLoop false src.property
  match r.2 with
  | some e => (r.1, some e)
  | none =>
    let s := protoPropsLoop true src.rawProperty
    (r.1 ++ s.1, s.2)

/-! ## Struct-path decoder: loadProperty / structPLS.Load
(load file lines 144-252 and 349-367) -/

/-- typeMismatchReason: name the wire value's apparent type and the target
field type. -/
def typeMismatchReason (p : Property) (target : FieldType) : String :=
  let entityType : String :=
    match p.value with
    | .int64 _ => "int"
    | .bool _ => "bool"
    | .string _ => "string"
    | .double _ => "float"
    | .key _ => "*datastore.Key"
    | .time _ => "datastore.Time"
    | .blobKey _ => "appengine.BlobKey"
    | .bytes _ => "[]byte"
    | .invalid _ => "empty"
  "type mismatch: " ++ entityType ++ " versus " ++ goTypeName target

/-- reflect's v.OverflowInt for a signed integer field of width w bits. -/
def overflowsInt (w : Nat) (x : Int) : Bool :=
  decide (x < -((2 : Int) ^ (w - 1))) || decide ((2 : Int) ^ (w - 1) ≤ x)

/-- The overflow reason string of loadProperty. -/
def overflowErrMsg (x : Int) (target : FieldType) : String :=
  "value " ++ toString x ++ " overflows struct field of type " ++ goTypeName target

/-- The kind switch of loadProperty: convert the property value for a
scalar target type (the field itself, or a slice field's new element).
Kind Int64 accepts a Time value and otherwise falls through to the shared
sized-integer case; Kind String accepts a BlobKey; Kind Float64 never
overflows a float64; Kind Ptr requires a *Key; Kind Slice here is a []byte
target ([]byte fields do not enter slice mode). -/
def setScalar (target : FieldType) (p : Property) : Except String GoVal :=
  match target with
  | .int64T =>
    match p.value with
    | .time x => .ok (.int64 x)
    | .int64 x =>
      if overflowsInt 64 x then .error (overflowErrMsg x target) else .ok (.int64 x)
    | _ => .error (typeMismatchReason p target)
  | .timeT =>
    match p.value with
    | .time x => .ok (.time x)
    | .int64 x =>
      if overflowsInt 64 x then .error (overflowErrMsg x target) else .ok (.time x)
    | _ => .error (typeMismatchReason p target)
  | .intT w =>
    match p.value with
    | .int64 x =>
      if overflowsInt w x then .error (overflowErrMsg x target) else .ok (.intW w x)
    | _ => .error (typeMismatchReason p target)
  | .boolT =>
    match p.value with
    | .bool b => .ok (.bool b)
    | _ => .error (typeMismatchReason p target)
  | .stringT =>
    match p.value with
    | .blobKey s => .ok (.string s)
    | .string s => .ok (.string s)
    | _ => .error (typeMismatchReason p target)
  | .blobKeyT =>
    match p.value with
    | .blobKey s => .ok (.blobKey s)
    | .string s => .ok (.blobKey s)
    | _ => .error (typeMismatchReason p target)
  | .doubleT =>
    match p.value with
    | .double d => .ok (.double d)
    | _ => .error (typeMismatchReason p target)
  | .keyT =>
    match p.value with
    | .key k => .ok (.key k)
    | _ => .error (typeMismatchReason p target)
  | .bytesT =>
    match p.value with
    | .bytes b => .ok (.bytes b)
    | _ => .error (typeMismatchReason p target)
  | .sliceT _ =>
    -- A slice-of-slice element: the p.Value.([]byte) assertion or the
    -- v.Interface().([]byte) assertion fails, either way a mismatch.
    .error (typeMismatchReason p target)
  | .unsupportedT _ => .error (typeMismatchReason p target)

/-- loadProperty: resolve the field by name via the codec, enter slice mode
for non-[]byte slice fields, demand a slice field when the property is
multiple-valued, convert, and write (appending in slice mode).  Returns the
updated field values and the reason string ("" on success). -/
def loadProperty (codec : StructCodec) (vals : List GoVal) (p : Property)
    (requireSlice : Bool) : List GoVal × String :=
  match codec.byName p.name with
  | none => (vals, "no such struct field")
  | some index =>
    match codec.byIndex[index]?, vals[index]? with
    | some t, some cur =>
      if !t.settable then (vals, "cannot set struct field")
      else
        match t.ftype with
        | .sliceT elemT =>
          match setScalar elemT p with
          | .error reason => (vals, reason)
          | .ok newv =>
            let xs := match cur with | .slice _ ys => ys | _ => []
            (vals.set index (.slice elemT (xs ++ [newv])), "")
        | tt =>
          if requireSlice then
            (vals, "multiple-valued property requires a slice field type")
          else
            match setScalar tt p with
            | .error reason => (vals, reason)
            | .ok newv => (vals.set index newv, "")
    | _, _ => (vals, "no such struct field")

/-- The error a failed struct load aggregates, or any other load error. -/
inductive LoadError where
  | fieldMismatch (structType fieldName reason : String)
  | other (msg : String)
deriving DecidableEq, Repr

/-- The receive loop of structPLS.Load, threading the field values and the
last recorded (fieldName, reason) pair. -/
def structLoadLoop (codec : StructCodec) (vals : List GoVal)
    (fieldName reason : String) : List Property → List GoVal × String × String
  | [] => (vals, fieldName, reason)
  | p :: ps =>
    let r := loadProperty codec vals p p.multiple
    if r.2 ≠ "" then structLoadLoop codec r.1 p.name r.2 ps
    else structLoadLoop codec r.1 fieldName reason ps

/-- structPLS.Load: process every property; if any mismatch occurred,
return one ErrFieldMismatch naming the record type and the last offending
property's name and reason. -/
def structLoad (codec : StructCodec) (vals : List GoVal)
    (props : List Property) : List GoVal × Option LoadError :=
  let r := structLoadLoop codec vals "" "" props
  if r.2.2 ≠ "" then
    (r.1, some (.fieldMismatch codec.typeName r.2.1 r.2.2))
  else (r.1, none)

/-- loadEntity on a struct destination: protoToProperties produces the
stream, structPLS.Load consumes it; the deferred "if err == nil, err =
<-errc" keeps the consumer's error when both fail. -/
def loadStructEntity (codec : StructCodec) (vals : List GoVal)
    (src : EntityProto) : List GoVal × Option LoadError :=
  let r := protoToProperties src
  let s := structLoad codec vals r.1
  match s.2 with
  | some e => (s.1, some e)
  | none =>
    match r.2 with
    | some e => (s.1, some (.other e))
    | none => (s.1, none)

/-! ## Map-path decoder: loadMapEntry / loadMap
(load file lines 254-326) -/

/-- Go map read m[name]. -/
def mapGet (m : DsMap) (k : String) : Option GoVal :=
  match m.find? (fun kv => kv.1 == k) with
  | some kv => some kv.2
  | none => none

/-- Go map write m[name] = v (replace in place or append). -/
def mapSet : DsMap → String → GoVal → DsMap
  | [], k, v => [(k, v)]
  | kv :: rest, k, v =>
    if kv.1 = k then (k, v) :: rest else kv :: mapSet rest k v

/-- The variant switch of loadMapEntry: the decoded value and the element
type of the slice to create on first sight of a multiple property.
ok none is the default branch: no populated variant, return nil. -/
def pbMapResult (p : PbProperty) : Except String (Option (GoVal × FieldType)) :=
  match p.value.int64Value with
  | some v =>
    if p.meaning = some .gdWhen then .ok (some (.time v, .timeT))
    else .ok (some (.int64 v, .int64T))
  | none =>
  match p.value.booleanValue with
  | some b => .ok (some (.bool b, .boolT))
  | none =>
  match p.value.stringValue with
  | some s =>
    if p.meaning = some .blob then .ok (some (.bytes s, .bytesT))
    else if p.meaning = some .blobkey then .ok (some (.blobKey s, .blobKeyT))
    else .ok (some (.string s, .stringT))
  | none =>
  match p.value.doubleValue with
  | some d => .ok (some (.double d, .doubleT))
  | none =>
  match p.value.referencevalue with
  | some r =>
    match referenceValueToKey r with
    | .error e => .error e
    | .ok k => .ok (some (.key (some k), .keyT))
  | none => .ok none

/-- loadMapEntry: convert one wire property into a Map entry, appending to
a slice-valued entry when the property is multiple-valued. -/
def loadMapEntry (m : DsMap) (p : PbProperty) : DsMap × Option String :=
  match pbMapResult p with
  | .error e => (m, some e)
  | .ok none => (m, none)
  | .ok (some (result, elemT)) =>
    let name := getString p.name
    if getBool p.multiple then
      match mapGet m name with
      | some (.slice t ys) => (mapSet m name (.slice t (ys ++ [result])), none)
      | some _ =>
        -- reflect.Append on a non-slice existing entry panics in the
        -- source; unreachable for decoder-produced inputs, modelled as
        -- starting a fresh slice.
        (mapSet m name (.slice elemT [result]), none)
      | none => (mapSet m name (.slice elemT [result]), none)
    else (mapSet m name result, none)

/-- One of loadMap's two loops: err keeps the latest non-nil error. -/
def loadMapLoop (m : DsMap) (err : Option String) :
    List PbProperty → DsMap × Option String
  | [] => (m, err)
  | p :: ps =>
    let r := loadMapEntry m p
    loadMapLoop r.1 (match r.2 with | some e => some e | none => err) ps

/-- loadMap: apply loadMapEntry to the indexed properties then the raw
properties, returning the last error seen, if any. -/
def loadMap (m : DsMap) (e : EntityProto) : DsMap × Option String :=
  let r := loadMapLoop m none e.property
  loadMapLoop r.1 r.2 e.rawProperty

/-- The zero value reflect gives a freshly allocated field of each type. -/
def zeroVal : FieldType → GoVal
  | .int64T => .int64 0
  | .intT w => .intW w 0
  | .timeT => .time 0
  | .boolT => .bool false
  | .stringT => .string ""
  | .blobKeyT => .blobKey ""
  | .doubleT => .double ⟨0⟩
  | .keyT => .key none
  | .bytesT => .bytes ""
  | .sliceT t => .slice t []
  | .unsupportedT tn => .unsupported tn

/-- A fresh record of the codec's type: every field at its zero value. -/
def zeroRecord (codec : StructCodec) : List GoVal :=
  codec.byIndex.map (fun f => zeroVal f.ftype)

/-! ## Specification-side helpers used by the theorems -/

/-- Whether the value is a nil Key pointer. -/
def isNilKey : GoVal → Bool
  | .key none => true
  | _ => false

/-- Whether the value is a (non-[]byte) slice. -/
def isSliceVal : GoVal → Bool
  | .slice _ _ => true
  | _ => false

/-- Whether the type is a (non-[]byte) slice type. -/
def isSliceT : FieldType → Bool
  | .sliceT _ => true
  | _ => false

/-- A scalar value inhabits the given scalar type, with sized integers in
range of their width (as the Go type system guarantees). -/
def scalarFits : FieldType → GoVal → Bool
  | .int64T, .int64 v => !overflowsInt 64 v
  | .intT w, .intW w2 v => w2 == w && !overflowsInt w v
  | .timeT, .time _ => true
  | .boolT, .bool _ => true
  | .stringT, .string _ => true
  | .blobKeyT, .blobKey _ => true
  | .doubleT, .double _ => true
  | .keyT, .key _ => true
  | .bytesT, .bytes _ => true
  | _, _ => false

/-- Scalar (non-slice, supported) types. -/
def isScalarT : FieldType → Bool
  | .sliceT _ => false
  | .unsupportedT _ => false
  | _ => true

/-- A field value inhabits the field's type: a slice field holds a slice of
fitting scalar elements none of which is a nil Key; any other field holds a
fitting scalar. -/
def fieldFits : FieldType → GoVal → Bool
  | .sliceT t, .slice t2 xs =>
    t2 == t && isScalarT t && xs.all (fun x => scalarFits t x && !isNilKey x)
  | t, v => scalarFits t v

/-- The in-memory property value saveStructProperty stores for a scalar. -/
def hostPV : GoVal → PropValue
  | .int64 x => .int64 x
  | .intW _ x => .int64 x
  | .time t => .time t
  | .bool b => .bool b
  | .string s => .string s
  | .blobKey s => .blobKey s
  | .double d => .double d
  | .key k => .key k
  | .bytes b => .bytes b
  | .slice t _ => .invalid ("[]" ++ goTypeName t)
  | .unsupported tn => .invalid tn

/-- The Property saveStructProperty emits for a scalar value ([]byte values
force NoIndex). -/
def mkSaveProp (name : String) (noIndex mult : Bool) (v : GoVal) : Property :=
  { name := name, value := hostPV v,
    noIndex := match v with | .bytes _ => true | _ => noIndex,
    multiple := mult }

/-- The properties structPLS.Save emits for one field: none for an ignored
or non-settable field or a nil Key; one per non-nil element of a slice
field, flagged multiple; one single-valued property otherwise. -/
def fieldProps (f : FieldCodec) (v : GoVal) : List Property :=
  if f.name = "-" then []
  else if !f.settable then []
  else
    match v with
    | .slice _ xs => (xs.filter (fun x => !isNilKey x)).map (mkSaveProp f.name f.noIndex true)
    | .key none => []
    | _ => [mkSaveProp f.name f.noIndex false v]

/-- All properties structPLS.Save emits for a record, in field order. -/
def recordProps (codec : StructCodec) (vals : List GoVal) : List Property :=
  ((codec.byIndex.zip vals).map (fun fv => fieldProps fv.1 fv.2)).flatten

/-- A streamed property the wire encoder accepts: a supported non-nil
value, with []byte values unindexed. -/
def propValOk (p : Property) : Bool :=
  match p.value with
  | .invalid _ => false
  | .key none => false
  | .bytes _ => p.noIndex
  | _ => true

/-- The wire property the streaming encoder builds for an accepted
in-memory property. -/
def propToPb (defaultAppID : String) (p : Property) : PbProperty :=
  match propValueToPb defaultAppID p.name p.noIndex p.value with
  | .ok (some (pv, m)) =>
    { name := some p.name, value := pv, meaning := m, multiple := some p.multiple }
  | _ => { name := some p.name, value := {}, multiple := some p.multiple }

/-- The number of indexed (to-be-indexed) properties of a stream. -/
def indexedCount (src : List Property) : Nat :=
  (src.filter (fun p => !p.noIndex)).length

/-- Well-typedness of a record against its codec: matching lengths, unique
field names, no ignored and no non-settable fields, every value fitting its
field's type. -/
structure GoodRecord (codec : StructCodec) (vals : List GoVal) : Prop where
  len : vals.length = codec.byIndex.length
  nodup : (codec.byIndex.map FieldCodec.name).Nodup
  fieldsGood : ∀ f ∈ codec.byIndex, (f.name != "-" && f.settable) = true
  fits : ∀ fv ∈ codec.byIndex.zip vals, fieldFits fv.1.ftype fv.2 = true

/-- No conflicting prevMultiple entry blocks any property of the rest of
the stream: each name is either unseen or was first seen flagged multiple
with the upcoming property flagged multiple as well. -/
def PrevOK (prev : List (String × Bool)) (rest : List Property) : Prop :=
  ∀ p ∈ rest, prev.lookup p.name = none ∨
    (prev.lookup p.name = some true ∧ p.multiple = true)

/-- Any two same-named properties of the stream are both flagged multiple. -/
def MultOK (props : List Property) : Prop :=
  props.Pairwise (fun p q => p.name = q.name → p.multiple = true ∧ q.multiple = true)

/-- The stream contains a multiplicity violation the encoder has not yet
recorded as consistent: either a name already seen whose recorded or
incoming flag is not multiple, or a later same-named pair not both flagged
multiple. -/
def MultBad (prev : List (String × Bool)) (rest : List Property) : Prop :=
  (∃ q ∈ rest, ∃ b, prev.lookup q.name = some b ∧ (b = false ∨ q.multiple = false)) ∨
  (∃ l1 p l2 q l3, rest = l1 ++ p :: l2 ++ q :: l3 ∧ p.name = q.name ∧
    (p.multiple = false ∨ q.multiple = false))

/-- The field-value update a struct load performs for one property
(the error string discarded). -/
def loadStep (codec : StructCodec) (vs : List GoVal) (p : Property) : List GoVal :=
  (loadProperty codec vs p p.multiple).1

/-- The reason string loadProperty computes, which depends only on the
codec and the property, never on the current field values (no conversion
inspects the destination). -/
def loadPropErr (codec : StructCodec) (p : Property) (requireSlice : Bool) : String :=
  match codec.byName p.name with
  | none => "no such struct field"
  | some index =>
    match codec.byIndex[index]? with
    | none => "no such struct field"
    | some t =>
      if !t.settable then "cannot set struct field"
      else
        match t.ftype with
        | .sliceT elemT =>
          match setScalar elemT p with
          | .error reason => reason
          | .ok _ => ""
        | tt =>
          if requireSlice then "multiple-valued property requires a slice field type"
          else
            match setScalar tt p with
            | .error reason => reason
            | .ok _ => ""

/-- The outcome of loadProperty at the resolved field slot, as a function
of the slot's current value: the new value to store, or the reason string.
Mirrors the control flow of loadProperty. -/
def loadOutcome (codec : StructCodec) (p : Property) (requireSlice : Bool)
    (cur : GoVal) : Except String GoVal :=
  match codec.byName p.name with
  | none => .error "no such struct field"
  | some index =>
    match codec.byIndex[index]? with
    | none => .error "no such struct field"
    | some t =>
      if !t.settable then .error "cannot set struct field"
      else
        match t.ftype with
        | .sliceT elemT =>
          match setScalar elemT p with
          | .error reason => .error reason
          | .ok w =>
            .ok (.slice elemT ((match cur with | .slice _ ys => ys | _ => []) ++ [w]))
        | tt =>
          if requireSlice then .error "multiple-valued property requires a slice field type"
          else setScalar tt p

/-- A value valueToProto accepts or skips: anything but a slice or an
unsupported value. -/
def elemValOk : GoVal → Bool
  | .slice _ _ => false
  | .unsupported _ => false
  | _ => true

/-- A map-source value the encoder accepts (possibly by skipping nil
Keys): anything except an unsupported value or a slice containing a slice
or unsupported element. -/
def mapValOk : GoVal → Bool
  | .slice _ xs => xs.all elemValOk
  | .unsupported _ => false
  | v => elemValOk v

/-- The wire property valueToProto yields on an accepted value. -/
def goValPb (defaultAppID name : String) (mult : Bool) (v : GoVal) : PbProperty :=
  match valueToProto defaultAppID name v mult with
  | .ok p => p
  | .error _ => { name := some name, value := {}, multiple := some mult }

/-- The indexed wire properties one map entry contributes. -/
def entryIndexedPbs (defaultAppID : String) (x : NameValue) : List PbProperty :=
  match x.value with
  | .slice _ xs =>
    (xs.filter (fun el => !isNilKey el && !(el.type == FieldType.bytesT))).map
      (goValPb defaultAppID x.name true)
  | .key none => []
  | v =>
    if v.type == FieldType.bytesT then []
    else [goValPb defaultAppID x.name false v]

/-- The raw wire properties one map entry contributes ([]byte values). -/
def entryRawPbs (defaultAppID : String) (x : NameValue) : List PbProperty :=
  match x.value with
  | .slice _ xs =>
    (xs.filter (fun el => el.type == FieldType.bytesT)).map
      (goValPb defaultAppID x.name true)
  | .key none => []
  | v =>
    if v.type == FieldType.bytesT then [goValPb defaultAppID x.name false v]
    else []

/-- A wire property with no populated value variant. -/
def noVariant (p : PbProperty) : Bool :=
  p.value.int64Value.isNone && p.value.booleanValue.isNone &&
    p.value.stringValue.isNone && p.value.doubleValue.isNone &&
    p.value.referencevalue.isNone

/-- The internal wire-invariant error message. -/
def noValueErrMsg : String := "datastore: internal error: stored property has no value"

/-! ## Concrete example data -/

/-- A concrete key. -/
def exKey : Key := .root "T" "" 7

/-- The wire form of exKey under app id "app". -/
def exRef : Reference := keyToProto "app" exKey

/-- A codec covering the supported type universe. -/
def rtCodec : StructCodec :=
  { typeName := "main.T",
    byIndex := [⟨"I", false, true, .int64T⟩, ⟨"W", false, true, .intT 8⟩,
      ⟨"B", false, true, .boolT⟩, ⟨"S", false, true, .stringT⟩,
      ⟨"F", false, true, .doubleT⟩, ⟨"K", false, true, .keyT⟩,
      ⟨"M", false, true, .timeT⟩, ⟨"Y", false, true, .bytesT⟩,
      ⟨"BK", false, true, .blobKeyT⟩, ⟨"L", false, true, .sliceT .stringT⟩] }

/-- A record of field values for rtCodec. -/
def rtVals : List GoVal :=
  [.int64 42, .intW 8 (-5), .bool true, .string "hi", .double ⟨123⟩,
   .key (some exKey), .time 99, .bytes "raw", .blobKey "bk",
   .slice .stringT [.string "a", .string "b"]]

/-- A valid indexed property to replicate past the limit. -/
def limitProp : Property := { name := "A", value := .int64 1, multiple := true }

/-- A codec with one int64 field. -/
def c2Codec : StructCodec :=
  { typeName := "main.U", byIndex := [⟨"A", false, true, .int64T⟩] }

/-- A stream with two failing properties around one that converts. -/
def c2Props : List Property :=
  [{ name := "A", value := .bool true }, { name := "A", value := .int64 5 },
   { name := "Nope", value := .int64 1 }]

/-- The last offending property of c2Props. -/
def c2Bad : Property := { name := "Nope", value := .int64 1 }

/-- A same-named pair with exactly one multiple flag. -/
def c4P : Property := { name := "D", value := .int64 1, multiple := true }

/-- The non-multiple partner of c4P. -/
def c4Q : Property := { name := "D", value := .int64 2 }

/-- A same-named pair with both multiple flags false. -/
def c10P : Property := { name := "E", value := .int64 1 }

/-- The second member of the both-false pair. -/
def c10Q : Property := { name := "E", value := .int64 2 }

/-- A wire property with no populated value variant. -/
def cexPb : PbProperty := { name := some "x", value := {} }

/-- A codec with a single non-byte-array slice field. -/
def c6Codec : StructCodec :=
  { typeName := "main.V", byIndex := [⟨"L", false, true, .sliceT .int64T⟩] }

/-- c6Codec's slice field. -/
def c7F : FieldCodec := ⟨"L", false, true, .sliceT .int64T⟩

/-- A single-valued (multiple=false) property aimed at c6Codec's slice
field. -/
def c6Prop : Property := { name := "L", value := .int64 7 }

/-- A codec with a single scalar field. -/
def c6ScalarCodec : StructCodec :=
  { typeName := "main.W", byIndex := [⟨"A", false, true, .int64T⟩] }

/-- A multiple-valued property aimed at c6ScalarCodec's non-slice field. -/
def c6MultProp : Property := { name := "A", value := .int64 3, multiple := true }

/-- A concrete indexed wire property. -/
def c9PbI : PbProperty :=
  { name := some "A", value := { int64Value := some 1 }, multiple := some false }

/-- A concrete raw wire property. -/
def c9PbR : PbProperty :=
  { name := some "R", value := { stringValue := some "s" }, multiple := some false }

/-- An entity with one indexed and one raw property. -/
def c9Entity : EntityProto :=
  { key := exRef, entityGroup := [], property := [c9PbI], rawProperty := [c9PbR] }

/-- The decoded form of c9Entity's indexed part. -/
def c9A : List Property := [{ name := "A", value := .int64 1 }]

/-- The decoded form of c9Entity's raw part. -/
def c9B : List Property := [{ name := "R", value := .string "s", noIndex := true }]

/-! ## Per-value round-trip lemmas -/

theorem Key.path_ne_nil (k : Key) : k.path ≠ [] := by
  cases k with
  | root k s i => simp [Key.path]
  | child k s i p => simp [Key.path]

theorem referenceValueToKey_roundtrip (d : String) (k : Key) :
    referenceValueToKey (keyToReferenceValue d k) = .ok k := by
  suffices h : ∀ (k : Key) (e : PathElem) (es : List PathElem),
      k.path = e :: es →
      es.foldl (fun k el => Key.child el.kind el.name el.id k)
        (Key.root e.kind e.name e.id) = k by
    unfold referenceValueToKey keyToReferenceValue keyToProto
    cases hp : k.path with
    | nil => exact absurd hp (Key.path_ne_nil k)
    | cons e es => simpa using h k e es hp
  intro k
  induction k with
  | root kk s i =>
    intro e es hp
    simp only [Key.path, List.cons.injEq] at hp
    obtain ⟨rfl, rfl⟩ := hp
    rfl
  | child kk s i p ih =>
    intro e es hp
    simp only [Key.path] at hp
    cases hq : p.path with
    | nil => exact absurd hq (Key.path_ne_nil p)
    | cons e2 es2 =>
      rw [hq] at hp
      simp only [List.cons_append, List.cons.injEq] at hp
      obtain ⟨rfl, rfl⟩ := hp
      rw [List.foldl_append]
      rw [ih e2 es2 hq]
      rfl

/-- A fitting scalar that is not a nil Key is emitted by saveStructProperty
exactly as mkSaveProp describes. -/
theorem saveStructProperty_scalar {t : FieldType} {v : GoVal}
    (hf : scalarFits t v = true) (hk : isNilKey v = false)
    (name : String) (noIndex mult : Bool) :
    saveStructProperty name noIndex mult v = .ok (some (mkSaveProp name noIndex mult v)) := by
  cases t <;> cases v <;>
    simp_all [scalarFits, isNilKey, saveStructProperty, mkSaveProp, hostPV]
  case keyT.key k =>
    cases k with
    | none => simp at hk
    | some k0 => rfl

/-- saveStructProperty on a nil Key emits nothing. -/
theorem saveStructProperty_nilKey (name : String) (noIndex mult : Bool) :
    saveStructProperty name noIndex mult (.key none) = .ok none := rfl

/-- An accepted property survives the wire round trip unchanged (up to the
positional noIndex flag the decoder attaches). -/
theorem pbToProperty_propToPb {p : Property} (h : propValOk p = true)
    (d : String) (b : Bool) :
    pbToProperty (propToPb d p) b =
      .ok { name := p.name, value := p.value, noIndex := b, multiple := p.multiple } := by
  cases hv : p.value with
  | key k =>
    cases k with
    | none => simp [propValOk, hv] at h
    | some k0 =>
      simp [propToPb, propValueToPb, hv, pbToProperty, pbValueToPropValue,
        getString, getBool, referenceValueToKey_roundtrip]
  | bytes s =>
    have hni : p.noIndex = true := by simpa [propValOk, hv] using h
    simp [propToPb, propValueToPb, hv, hni, pbToProperty, pbValueToPropValue,
      getString, getBool]
  | invalid tn => simp [propValOk, hv] at h
  | _ =>
    simp [propToPb, propValueToPb, hv, pbToProperty, pbValueToPropValue,
      getString, getBool]

/-- Decoding a saved scalar back into a field of the value's own type
reproduces the value. -/
theorem setScalar_roundtrip {t : FieldType} {v : GoVal}
    (hf : scalarFits t v = true) (hk : isNilKey v = false)
    {p : Property} (hpv : p.value = hostPV v) :
    setScalar t p = .ok v := by
  cases t <;> cases v <;>
    simp_all [scalarFits, isNilKey, setScalar, hostPV]

/-! ## Streaming encoder lemmas -/

/-- What one encoder iteration does to an accepted property, after the
multiplicity check resolved to the new prevMultiple map. -/
theorem encStepBody_ok {p : Property} (h : propValOk p = true)
    (d : String) (st : EncState) (prev : List (String × Bool)) :
    encStepBody d st prev p =
      if p.noIndex then
        .ok { property := st.property, rawProperty := st.rawProperty ++ [propToPb d p],
              prevMultiple := prev }
      else if st.property.length + 1 > maxIndexedProperties then
        .error "datastore: too many indexed properties"
      else
        .ok { property := st.property ++ [propToPb d p], rawProperty := st.rawProperty,
              prevMultiple := prev } := by
  cases hv : p.value <;>
    simp_all [propValOk, encStepBody, propValueToPb, propToPb]
  case key k =>
    cases k with
    | none => simp at h
    | some k0 => simp [encStepBody, propValueToPb, hv, propToPb]

/-- The encoder loop accepts a wholly well-formed stream and produces the
indexed and raw wire properties, each side in stream order. -/
theorem encLoop_ok (d : String) : ∀ (rest : List Property) (st : EncState),
    (∀ p ∈ rest, propValOk p = true) →
    PrevOK st.prevMultiple rest →
    MultOK rest →
    st.property.length + indexedCount rest ≤ maxIndexedProperties →
    ∃ prev2, encLoop d st rest =
      .ok { property := st.property ++ (rest.filter (fun p => !p.noIndex)).map (propToPb d),
            rawProperty := st.rawProperty ++ (rest.filter (fun p => p.noIndex)).map (propToPb d),
            prevMultiple := prev2 } := by
  intro rest
  induction rest with
  | nil =>
    intro st _ _ _ _
    exact ⟨st.prevMultiple, by simp [encLoop]⟩
  | cons p ps ih =>
    intro st hok hprev hmult hbudget
    have hpok : propValOk p = true := hok p (by simp)
    have hok_tail : ∀ q ∈ ps, propValOk q = true :=
      fun q hq => hok q (List.mem_cons_of_mem _ hq)
    have hmult_tail : MultOK ps := (List.pairwise_cons.mp hmult).2
    have hmult_head := (List.pairwise_cons.mp hmult).1
    -- resolve the multiplicity check
    have hstep : ∃ prev', encStep d st p = encStepBody d st prev' p ∧
        PrevOK prev' ps := by
      rcases hprev p (by simp) with hnone | ⟨hsome, hpm⟩
      · refine ⟨(p.name, p.multiple) :: st.prevMultiple, ?_, ?_⟩
        · simp [encStep, hnone]
        · intro q hq
          by_cases hname : p.name = q.name
          · right
            have hqm := hmult_head q hq hname
            have hbeq : (q.name == p.name) = true := by simp [hname]
            constructor
            · simp [List.lookup, hbeq, hqm.1]
            · exact hqm.2
          · have hbeq : (q.name == p.name) = false := by
              simp only [beq_eq_false_iff_ne, ne_eq]
              exact fun h => hname h.symm
            have hl : ((p.name, p.multiple) :: st.prevMultiple).lookup q.name =
                st.prevMultiple.lookup q.name := by
              simp [List.lookup, hbeq]
            rw [hl]
            exact hprev q (List.mem_cons_of_mem _ hq)
      · refine ⟨st.prevMultiple, ?_, ?_⟩
        · simp [encStep, hsome, hpm]
        · intro q hq
          exact hprev q (List.mem_cons_of_mem _ hq)
    obtain ⟨prev', hstep_eq, hprev'⟩ := hstep
    by_cases hni : p.noIndex = true
    · -- raw property: indexed budget unchanged
      have henc : encStep d st p =
          .ok { property := st.property,
                rawProperty := st.rawProperty ++ [propToPb d p],
                prevMultiple := prev' } := by
        rw [hstep_eq, encStepBody_ok hpok, if_pos hni]
      have hcount : indexedCount (p :: ps) = indexedCount ps := by
        simp [indexedCount, List.filter_cons, hni]
      obtain ⟨prev2, hloop⟩ := ih
        { property := st.property,
          rawProperty := st.rawProperty ++ [propToPb d p],
          prevMultiple := prev' }
        hok_tail hprev' hmult_tail (by simpa [hcount] using hbudget)
      refine ⟨prev2, ?_⟩
      rw [show encLoop d st (p :: ps) =
        encLoop d { property := st.property,
                    rawProperty := st.rawProperty ++ [propToPb d p],
                    prevMultiple := prev' } ps from by rw [encLoop, henc]]
      rw [hloop]
      simp [List.filter_cons, hni, List.append_assoc]
    · -- indexed property: budget strictly decreases
      have hni' : p.noIndex = false := by
        cases hpn : p.noIndex
        · rfl
        · exact absurd hpn hni
      have hcount : indexedCount (p :: ps) = indexedCount ps + 1 := by
        simp [indexedCount, List.filter_cons, hni']
      have hfit : ¬ (st.property.length + 1 > maxIndexedProperties) := by
        rw [hcount] at hbudget
        omega
      have henc : encStep d st p =
          .ok { property := st.property ++ [propToPb d p],
                rawProperty := st.rawProperty,
                prevMultiple := prev' } := by
        rw [hstep_eq, encStepBody_ok hpok]
        rw [if_neg (by simp [hni']), if_neg hfit]
      obtain ⟨prev2, hloop⟩ := ih
        { property := st.property ++ [propToPb d p],
          rawProperty := st.rawProperty,
          prevMultiple := prev' }
        hok_tail hprev' hmult_tail
        (by simp only [List.length_append, List.length_cons, List.length_nil]
            rw [hcount] at hbudget
            omega)
      refine ⟨prev2, ?_⟩
      rw [show encLoop d st (p :: ps) =
        encLoop d { property := st.property ++ [propToPb d p],
                    rawProperty := st.rawProperty,
                    prevMultiple := prev' } ps from by rw [encLoop, henc]]
      rw [hloop]
      simp [List.filter_cons, hni', List.append_assoc]

/-- propertiesToProto accepts a wholly well-formed stream: the entity holds
the indexed properties in stream order and the raw properties in stream
order, under the key and its entity group. -/
theorem propertiesToProto_ok (d : String) (key : Key) (src : List Property)
    (hok : ∀ p ∈ src, propValOk p = true) (hmult : MultOK src)
    (hbudget : indexedCount src ≤ maxIndexedProperties) :
    propertiesToProto d key src =
      .ok { key := keyToProto d key
            entityGroup := entityGroupOf d key
            property := (src.filter (fun p => !p.noIndex)).map (propToPb d)
            rawProperty := (src.filter (fun p => p.noIndex)).map (propToPb d) } := by
  obtain ⟨prev2, hloop⟩ := encLoop_ok d src {} hok
    (by intro q hq; left; rfl) hmult (by simpa using hbudget)
  unfold propertiesToProto
  rw [hloop]
  simp

/-- The encoder loop hits the indexed-property limit as soon as the count
would first exceed it, given the state has not yet exceeded it. -/
theorem encLoop_limit (d : String) : ∀ (rest : List Property) (st : EncState),
    (∀ p ∈ rest, propValOk p = true) →
    PrevOK st.prevMultiple rest →
    MultOK rest →
    st.property.length ≤ maxIndexedProperties →
    st.property.length + indexedCount rest > maxIndexedProperties →
    encLoop d st rest = .error "datastore: too many indexed properties" := by
  intro rest
  induction rest with
  | nil =>
    intro st _ _ _ hle hgt
    simp [indexedCount] at hgt
    omega
  | cons p ps ih =>
    intro st hok hprev hmult hle hgt
    have hpok : propValOk p = true := hok p (by simp)
    have hok_tail : ∀ q ∈ ps, propValOk q = true :=
      fun q hq => hok q (List.mem_cons_of_mem _ hq)
    have hmult_tail : MultOK ps := (List.pairwise_cons.mp hmult).2
    have hmult_head := (List.pairwise_cons.mp hmult).1
    have hstep : ∃ prev', encStep d st p = encStepBody d st prev' p ∧
        PrevOK prev' ps := by
      rcases hprev p (by simp) with hnone | ⟨hsome, hpm⟩
      · refine ⟨(p.name, p.multiple) :: st.prevMultiple, ?_, ?_⟩
        · simp [encStep, hnone]
        · intro q hq
          by_cases hname : p.name = q.name
          · right
            have hqm := hmult_head q hq hname
            have hbeq : (q.name == p.name) = true := by simp [hname]
            exact ⟨by simp [List.lookup, hbeq, hqm.1], hqm.2⟩
          · have hbeq : (q.name == p.name) = false := by
              simp only [beq_eq_false_iff_ne, ne_eq]
              exact fun h => hname h.symm
            have hl : ((p.name, p.multiple) :: st.prevMultiple).lookup q.name =
                st.prevMultiple.lookup q.name := by
              simp [List.lookup, hbeq]
            rw [hl]
            exact hprev q (List.mem_cons_of_mem _ hq)
      · exact ⟨st.prevMultiple, by simp [encStep, hsome, hpm],
          fun q hq => hprev q (List.mem_cons_of_mem _ hq)⟩
    obtain ⟨prev', hstep_eq, hprev'⟩ := hstep
    by_cases hni : p.noIndex = true
    · have henc : encStep d st p =
          .ok { property := st.property,
                rawProperty := st.rawProperty ++ [propToPb d p],
                prevMultiple := prev' } := by
        rw [hstep_eq, encStepBody_ok hpok, if_pos hni]
      have hcount : indexedCount (p :: ps) = indexedCount ps := by
        simp [indexedCount, List.filter_cons, hni]
      rw [show encLoop d st (p :: ps) =
        encLoop d { property := st.property,
                    rawProperty := st.rawProperty ++ [propToPb d p],
                    prevMultiple := prev' } ps from by rw [encLoop, henc]]
      exact ih _ hok_tail hprev' hmult_tail hle (by rw [hcount] at hgt; exact hgt)
    · have hni' : p.noIndex = false := by
        cases hpn : p.noIndex
        · rfl
        · exact absurd hpn hni
      have hcount : indexedCount (p :: ps) = indexedCount ps + 1 := by
        simp [indexedCount, List.filter_cons, hni']
      by_cases hover : st.property.length + 1 > maxIndexedProperties
      · -- the limit trips at this property
        rw [encLoop, hstep_eq, encStepBody_ok hpok,
          if_neg (by simp [hni']), if_pos hover]
      · have henc : encStep d st p =
            .ok { property := st.property ++ [propToPb d p],
                  rawProperty := st.rawProperty,
                  prevMultiple := prev' } := by
          rw [hstep_eq, encStepBody_ok hpok, if_neg (by simp [hni']), if_neg hover]
        rw [show encLoop d st (p :: ps) =
          encLoop d { property := st.property ++ [propToPb d p],
                      rawProperty := st.rawProperty,
                      prevMultiple := prev' } ps from by rw [encLoop, henc]]
        refine ih _ hok_tail hprev' hmult_tail ?_ ?_
        · simp only [List.length_append, List.length_cons, List.length_nil]
          omega
        · simp only [List.length_append, List.length_cons, List.length_nil]
          rw [hcount] at hgt
          omega

/-- A multiplicity violation in an otherwise acceptable stream (supported
values, indexed count within the limit) always surfaces as the
multiplicity-consistency error. -/
theorem encLoop_mult_violation (d : String) : ∀ (rest : List Property) (st : EncState),
    (∀ p ∈ rest, propValOk p = true) →
    st.property.length + indexedCount rest ≤ maxIndexedProperties →
    MultBad st.prevMultiple rest →
    ∃ n, encLoop d st rest = .error (multipleErrMsg n) := by
  intro rest
  induction rest with
  | nil =>
    intro st _ _ hbad
    rcases hbad with ⟨q, hq, _⟩ | ⟨l1, p, l2, q, l3, habs, _⟩
    · simp at hq
    · exact absurd habs (by simp)
  | cons r ps ih =>
    intro st hok hbudget hbad
    have hrok : propValOk r = true := hok r (by simp)
    have hok_tail : ∀ q ∈ ps, propValOk q = true :=
      fun q hq => hok q (List.mem_cons_of_mem _ hq)
    by_cases hfail : ∃ b, st.prevMultiple.lookup r.name = some b ∧
        (b = false ∨ r.multiple = false)
    · -- the check fails at r itself
      obtain ⟨b, hsome, hb⟩ := hfail
      have hcond : (!b || !r.multiple) = true := by
        rcases hb with rfl | h
        · rfl
        · simp [h]
      have henc : encStep d st r = .error (multipleErrMsg r.name) := by
        simp [encStep, hsome, hcond]
      exact ⟨r.name, by rw [encLoop, henc]⟩
    · -- the check passes; transport the violation into the tail
      have hstep : ∃ prev', encStep d st r = encStepBody d st prev' r ∧
          MultBad prev' ps := by
        cases hsome : st.prevMultiple.lookup r.name with
        | some b =>
          have hbt : b = true := by
            cases b
            · exact absurd ⟨false, hsome, Or.inl rfl⟩ hfail
            · rfl
          have hrm : r.multiple = true := by
            cases hrm : r.multiple
            · exact absurd ⟨b, hsome, Or.inr hrm⟩ hfail
            · rfl
          refine ⟨st.prevMultiple, by simp [encStep, hsome, hbt, hrm], ?_⟩
          rcases hbad with ⟨q, hq, b2, hlk, hb2⟩ | ⟨l1, p, l2, q, l3, hsplit, hnm, hm⟩
          · rcases List.mem_cons.mp hq with rfl | hq'
            · exact absurd ⟨b2, hlk, hb2⟩ hfail
            · exact Or.inl ⟨q, hq', b2, hlk, hb2⟩
          · cases l1 with
            | cons x l1' =>
              rw [List.cons_append] at hsplit
              injection hsplit with h1 h2
              exact Or.inr ⟨l1', p, l2, q, l3, h2, hnm, hm⟩
            | nil =>
              rw [List.nil_append] at hsplit
              injection hsplit with h1 h2
              subst h1
              subst h2
              have hqm : q.multiple = false := by
                rcases hm with hpm | hqm
                · exact absurd hpm (by rw [hrm]; exact fun h => Bool.noConfusion h)
                · exact hqm
              refine Or.inl ⟨q, by simp, b, ?_, Or.inr hqm⟩
              rw [← hnm]
              exact hsome
        | none =>
          refine ⟨(r.name, r.multiple) :: st.prevMultiple, by simp [encStep, hsome], ?_⟩
          rcases hbad with ⟨q, hq, b2, hlk, hb2⟩ | ⟨l1, p, l2, q, l3, hsplit, hnm, hm⟩
          · rcases List.mem_cons.mp hq with rfl | hq'
            · rw [hsome] at hlk
              exact absurd hlk (by simp)
            · by_cases hn : q.name = r.name
              · rw [hn, hsome] at hlk
                exact absurd hlk (by simp)
              · have hbeq : (q.name == r.name) = false := by
                  simp only [beq_eq_false_iff_ne, ne_eq]
                  exact hn
                exact Or.inl ⟨q, hq', b2, by simp [List.lookup, hbeq]; exact hlk, hb2⟩
          · cases l1 with
            | cons x l1' =>
              rw [List.cons_append] at hsplit
              injection hsplit with h1 h2
              exact Or.inr ⟨l1', p, l2, q, l3, h2, hnm, hm⟩
            | nil =>
              rw [List.nil_append] at hsplit
              injection hsplit with h1 h2
              subst h1
              subst h2
              have hbeq : (q.name == r.name) = true := by simp [hnm.symm]
              refine Or.inl ⟨q, by simp, r.multiple, by simp [List.lookup, hbeq], hm⟩
      obtain ⟨prev', hstep_eq, hbad'⟩ := hstep
      by_cases hni : r.noIndex = true
      · have henc : encStep d st r =
            .ok { property := st.property,
                  rawProperty := st.rawProperty ++ [propToPb d r],
                  prevMultiple := prev' } := by
          rw [hstep_eq, encStepBody_ok hrok, if_pos hni]
        have hcount : indexedCount (r :: ps) = indexedCount ps := by
          simp [indexedCount, List.filter_cons, hni]
        obtain ⟨n, hn⟩ := ih
          { property := st.property,
            rawProperty := st.rawProperty ++ [propToPb d r],
            prevMultiple := prev' }
          hok_tail (by simpa [hcount] using hbudget) hbad'
        exact ⟨n, by rw [encLoop, henc]; exact hn⟩
      · have hni' : r.noIndex = false := by
          cases hpn : r.noIndex
          · rfl
          · exact absurd hpn hni
        have hcount : indexedCount (r :: ps) = indexedCount ps + 1 := by
          simp [indexedCount, List.filter_cons, hni']
        have hover : ¬ (st.property.length + 1 > maxIndexedProperties) := by
          rw [hcount] at hbudget
          omega
        have henc : encStep d st r =
            .ok { property := st.property ++ [propToPb d r],
                  rawProperty := st.rawProperty,
                  prevMultiple := prev' } := by
          rw [hstep_eq, encStepBody_ok hrok, if_neg (by simp [hni']), if_neg hover]
        obtain ⟨n, hn⟩ := ih
          { property := st.property ++ [propToPb d r],
            rawProperty := st.rawProperty,
            prevMultiple := prev' }
          hok_tail
          (by simp only [List.length_append, List.length_cons, List.length_nil]
              rw [hcount] at hbudget
              omega)
          hbad'
        exact ⟨n, by rw [encLoop, henc]; exact hn⟩

/-! ## Struct-save lemmas -/

theorem isNilKey_true {x : GoVal} (h : isNilKey x = true) : x = .key none := by
  cases x with
  | key k =>
    cases k with
    | none => rfl
    | some _ => simp [isNilKey] at h
  | int64 v => simp [isNilKey] at h
  | intW w v => simp [isNilKey] at h
  | time v => simp [isNilKey] at h
  | bool b => simp [isNilKey] at h
  | string s => simp [isNilKey] at h
  | blobKey s => simp [isNilKey] at h
  | double f => simp [isNilKey] at h
  | bytes b => simp [isNilKey] at h
  | slice t xs => simp [isNilKey] at h
  | unsupported tn => simp [isNilKey] at h

theorem fieldFits_slice {ft t2 : FieldType} {xs : List GoVal}
    (h : fieldFits ft (.slice t2 xs) = true) :
    ft = .sliceT t2 ∧ isScalarT t2 = true ∧
      ∀ x ∈ xs, scalarFits t2 x = true ∧ isNilKey x = false := by
  cases ft with
  | sliceT u =>
    simp only [fieldFits, Bool.and_eq_true, beq_iff_eq, List.all_eq_true] at h
    obtain ⟨⟨rfl, hsc⟩, hall⟩ := h
    refine ⟨rfl, hsc, ?_⟩
    intro x hx
    have := hall x hx
    simp only [Bool.and_eq_true, Bool.not_eq_true'] at this
    exact this
  | int64T => simp [fieldFits, scalarFits] at h
  | intT w => simp [fieldFits, scalarFits] at h
  | timeT => simp [fieldFits, scalarFits] at h
  | boolT => simp [fieldFits, scalarFits] at h
  | stringT => simp [fieldFits, scalarFits] at h
  | blobKeyT => simp [fieldFits, scalarFits] at h
  | doubleT => simp [fieldFits, scalarFits] at h
  | keyT => simp [fieldFits, scalarFits] at h
  | bytesT => simp [fieldFits, scalarFits] at h
  | unsupportedT tn => simp [fieldFits, scalarFits] at h

/-- saveSliceElems emits one multiple-valued property per non-nil fitting
element, in order. -/
theorem saveSliceElems_ok {u : FieldType} (name : String) (ni : Bool) :
    ∀ (xs : List GoVal), (∀ x ∈ xs, scalarFits u x = true) →
    saveSliceElems name ni xs =
      .ok ((xs.filter (fun x => !isNilKey x)).map (mkSaveProp name ni true)) := by
  intro xs
  induction xs with
  | nil => intro _; rfl
  | cons x rest ih =>
    intro hall
    have hx := hall x (by simp)
    have hrest := fun y hy => hall y (List.mem_cons_of_mem _ hy)
    by_cases hnil : isNilKey x = true
    · obtain rfl := isNilKey_true hnil
      rw [saveSliceElems, saveStructProperty_nilKey, ih hrest]
      simp [List.filter_cons, isNilKey]
    · have hnil' : isNilKey x = false := by
        cases h : isNilKey x
        · rfl
        · exact absurd h hnil
      rw [saveSliceElems, saveStructProperty_scalar hx hnil', ih hrest]
      simp [List.filter_cons, hnil']

theorem fieldFits_nonslice {ft : FieldType} {v : GoVal}
    (h : fieldFits ft v = true) (hv : isSliceVal v = false) :
    scalarFits ft v = true := by
  cases ft <;> cases v <;> simp_all [fieldFits, isSliceVal, scalarFits]

/-- One iteration of structPLS.Save over a well-typed field: emit the
field's properties and continue. -/
theorem structSaveLoop_cons_ok {t : FieldCodec} {v : GoVal}
    {rest : List (FieldCodec × GoVal)} (hfit : fieldFits t.ftype v = true) :
    structSaveLoop ((t, v) :: rest) =
      match structSaveLoop rest with
      | .error s => .error s
      | .ok qs => .ok (fieldProps t v ++ qs) := by
  cases v with
  | slice t2 xs =>
    obtain ⟨hft, _, hall2⟩ := fieldFits_slice hfit
    simp only [structSaveLoop]
    by_cases hname : t.name = "-"
    · rw [if_pos hname]
      cases hres : structSaveLoop rest <;> simp [fieldProps, hname, hres]
    · rw [if_neg hname]
      by_cases hset : t.settable = true
      · rw [if_neg (by simp [hset])]
        rw [saveSliceElems_ok t.name t.noIndex xs (fun x hx => (hall2 x hx).1)]
        cases hres : structSaveLoop rest <;> simp [fieldProps, hname, hset, hres]
      · have hset2 : t.settable = false := by
          cases h : t.settable
          · rfl
          · exact absurd h hset
        rw [if_pos (by simp [hset2])]
        cases hres : structSaveLoop rest <;> simp [fieldProps, hname, hset2, hres]
  | key k =>
    cases k with
    | none =>
      simp only [structSaveLoop]
      by_cases hname : t.name = "-"
      · rw [if_pos hname]
        cases hres : structSaveLoop rest <;> simp [fieldProps, hname, hres]
      · rw [if_neg hname]
        by_cases hset : t.settable = true
        · rw [if_neg (by simp [hset]), saveStructProperty_nilKey]
          cases hres : structSaveLoop rest <;> simp [fieldProps, hname, hset, hres]
        · have hset2 : t.settable = false := by
            cases h : t.settable
            · rfl
            · exact absurd h hset
          rw [if_pos (by simp [hset2])]
          cases hres : structSaveLoop rest <;> simp [fieldProps, hname, hset2, hres]
    | some k0 =>
      simp only [structSaveLoop]
      by_cases hname : t.name = "-"
      · rw [if_pos hname]
        cases hres : structSaveLoop rest <;> simp [fieldProps, hname, hres]
      · rw [if_neg hname]
        by_cases hset : t.settable = true
        · rw [if_neg (by simp [hset]),
            saveStructProperty_scalar (fieldFits_nonslice hfit (by rfl)) (by rfl)
              t.name t.noIndex false]
          cases hres : structSaveLoop rest <;> simp [fieldProps, hname, hset, hres]
        · have hset2 : t.settable = false := by
            cases h : t.settable
            · rfl
            · exact absurd h hset
          rw [if_pos (by simp [hset2])]
          cases hres : structSaveLoop rest <;> simp [fieldProps, hname, hset2, hres]
  | unsupported tn =>
    exact absurd hfit (by cases ht : t.ftype <;> simp [fieldFits, scalarFits])
  | _ =>
    simp only [structSaveLoop]
    by_cases hname : t.name = "-"
    · rw [if_pos hname]
      cases hres : structSaveLoop rest <;> simp [fieldProps, hname, hres]
    · rw [if_neg hname]
      by_cases hset : t.settable = true
      · rw [if_neg (by simp [hset]),
          saveStructProperty_scalar (fieldFits_nonslice hfit (by rfl)) (by rfl)
            t.name t.noIndex false]
        cases hres : structSaveLoop rest <;> simp [fieldProps, hname, hset, hres]
      · have hset2 : t.settable = false := by
          cases h : t.settable
          · rfl
          · exact absurd h hset
        rw [if_pos (by simp [hset2])]
        cases hres : structSaveLoop rest <;> simp [fieldProps, hname, hset2, hres]

/-- structPLS.Save on well-typed fields emits exactly the per-field
properties, concatenated in declared field order. -/
theorem structSaveLoop_ok : ∀ (l : List (FieldCodec × GoVal)),
    (∀ fv ∈ l, fieldFits fv.1.ftype fv.2 = true) →
    structSaveLoop l = .ok ((l.map (fun fv => fieldProps fv.1 fv.2)).flatten) := by
  intro l
  induction l with
  | nil => intro _; rfl
  | cons tv rest ih =>
    intro hall
    obtain ⟨t, v⟩ := tv
    have hfit : fieldFits t.ftype v = true := hall (t, v) (by simp)
    have hrest := fun y hy => hall y (List.mem_cons_of_mem _ hy)
    rw [structSaveLoop_cons_ok hfit, ih hrest]
    simp

/-- structPLS.Save on a well-typed record. -/
theorem structSave_ok (codec : StructCodec) (vals : List GoVal)
    (hfits : ∀ fv ∈ codec.byIndex.zip vals, fieldFits fv.1.ftype fv.2 = true) :
    structSave codec vals = .ok (recordProps codec vals) :=
  structSaveLoop_ok _ hfits

/-! ## Struct-load lemmas -/

theorem findFieldIdx_lt : ∀ {l : List FieldCodec} {n : String} {i : Nat},
    findFieldIdx n l = some i → i < l.length := by
  intro l
  induction l with
  | nil =>
    intro n i h
    rw [findFieldIdx] at h
    exact absurd h (by simp)
  | cons f fs ih =>
    intro n i h
    rw [findFieldIdx] at h
    by_cases hf : (f.name == n) = true
    · rw [if_pos hf] at h
      injection h with h
      subst h
      simp
    · rw [if_neg hf] at h
      cases hfs : findFieldIdx n fs with
      | none => rw [hfs] at h; exact absurd h (by simp)
      | some j =>
        rw [hfs] at h
        have hji : j + 1 = i := by simpa using h
        have := ih hfs
        simp only [List.length_cons]
        omega

theorem findFieldIdx_nodup : ∀ {l : List FieldCodec} {i : Nat} {f : FieldCodec},
    l[i]? = some f → (l.map FieldCodec.name).Nodup →
    findFieldIdx f.name l = some i := by
  intro l
  induction l with
  | nil => intro i f h _; simp at h
  | cons g gs ih =>
    intro i f h hnd
    cases i with
    | zero =>
      have hg : g = f := by simpa using h
      subst hg
      rw [findFieldIdx, if_pos (by simp)]
    | succ j =>
      have hj : gs[j]? = some f := by simpa using h
      have hnd' : (∀ x ∈ gs, ¬ x.name = g.name) ∧
          (gs.map FieldCodec.name).Nodup := by simpa using hnd
      have hne : (g.name == f.name) = false := by
        have hfm : f ∈ gs := List.getElem?_mem hj
        simp only [beq_eq_false_iff_ne, ne_eq]
        intro he
        exact hnd'.1 f hfm he.symm
      rw [findFieldIdx, if_neg (by simp [hne]), ih hj hnd'.2]
      rfl

theorem loadProperty_noField {codec : StructCodec} {vals : List GoVal}
    {p : Property} {rs : Bool} (hby : codec.byName p.name = none) :
    loadProperty codec vals p rs = (vals, "no such struct field") := by
  unfold loadProperty
  rw [hby]

theorem loadProperty_outOfRange {codec : StructCodec} {vals : List GoVal}
    {p : Property} {rs : Bool} {i : Nat} (hby : codec.byName p.name = some i)
    (hv : vals[i]? = none) :
    loadProperty codec vals p rs = (vals, "no such struct field") := by
  unfold loadProperty
  rw [hby]
  cases hbi : codec.byIndex[i]? <;> simp [hbi, hv]

/-- loadProperty at a resolved, in-range slot is exactly the loadOutcome of
the slot's current value. -/
theorem loadProperty_eq_outcome {codec : StructCodec} {vals : List GoVal}
    {p : Property} {rs : Bool} {i : Nat} {cur : GoVal}
    (hby : codec.byName p.name = some i) (hcur : vals[i]? = some cur) :
    loadProperty codec vals p rs =
      match loadOutcome codec p rs cur with
      | .error e => (vals, e)
      | .ok w => (vals.set i w, "") := by
  unfold loadProperty loadOutcome
  rw [hby]
  cases hbi : codec.byIndex[i]? with
  | none => simp [hbi, hcur]
  | some t =>
    obtain ⟨tn, tni, tset, tft⟩ := t
    simp only [hbi, hcur]
    cases tset with
    | false => simp
    | true =>
      simp only [Bool.not_true, Bool.false_eq_true, if_false]
      cases tft with
      | sliceT elemT =>
        cases hss : setScalar elemT p with
        | error e => simp [hss]
        | ok w => simp [hss]
      | int64T =>
        cases rs with
        | true => rfl
        | false =>
          cases hss : setScalar FieldType.int64T p with
          | error e => simp [hss]
          | ok w2 => simp [hss]
      | intT w =>
        cases rs with
        | true => rfl
        | false =>
          cases hss : setScalar (FieldType.intT w) p with
          | error e => simp [hss]
          | ok w2 => simp [hss]
      | timeT =>
        cases rs with
        | true => rfl
        | false =>
          cases hss : setScalar FieldType.timeT p with
          | error e => simp [hss]
          | ok w2 => simp [hss]
      | boolT =>
        cases rs with
        | true => rfl
        | false =>
          cases hss : setScalar FieldType.boolT p with
          | error e => simp [hss]
          | ok w2 => simp [hss]
      | stringT =>
        cases rs with
        | true => rfl
        | false =>
          cases hss : setScalar FieldType.stringT p with
          | error e => simp [hss]
          | ok w2 => simp [hss]
      | blobKeyT =>
        cases rs with
        | true => rfl
        | false =>
          cases hss : setScalar FieldType.blobKeyT p with
          | error e => simp [hss]
          | ok w2 => simp [hss]
      | doubleT =>
        cases rs with
        | true => rfl
        | false =>
          cases hss : setScalar FieldType.doubleT p with
          | error e => simp [hss]
          | ok w2 => simp [hss]
      | keyT =>
        cases rs with
        | true => rfl
        | false =>
          cases hss : setScalar FieldType.keyT p with
          | error e => simp [hss]
          | ok w2 => simp [hss]
      | bytesT =>
        cases rs with
        | true => rfl
        | false =>
          cases hss : setScalar FieldType.bytesT p with
          | error e => simp [hss]
          | ok w2 => simp [hss]
      | unsupportedT tn2 =>
        cases rs with
        | true => rfl
        | false =>
          cases hss : setScalar (FieldType.unsupportedT tn2) p with
          | error e => simp [hss]
          | ok w2 => simp [hss]

/-- The reason string of a resolved property is the outcome's error side,
regardless of the current slot value. -/
theorem loadPropErr_eq_outcome {codec : StructCodec} {p : Property} {rs : Bool}
    {i : Nat} (hby : codec.byName p.name = some i) (cur : GoVal) :
    loadPropErr codec p rs =
      match loadOutcome codec p rs cur with
      | .error e => e
      | .ok _ => "" := by
  unfold loadPropErr loadOutcome
  rw [hby]
  cases hbi : codec.byIndex[i]? with
  | none => simp [hbi]
  | some t =>
    obtain ⟨tn, tni, tset, tft⟩ := t
    simp only [hbi]
    cases tset with
    | false => simp
    | true =>
      simp only [Bool.not_true, Bool.false_eq_true, if_false]
      cases tft with
      | sliceT elemT =>
        cases hss : setScalar elemT p with
        | error e => simp [hss]
        | ok w => simp [hss]
      | int64T =>
        cases rs with
        | true => rfl
        | false =>
          cases hss : setScalar FieldType.int64T p with
          | error e => simp [hss]
          | ok w2 => simp [hss]
      | intT w =>
        cases rs with
        | true => rfl
        | false =>
          cases hss : setScalar (FieldType.intT w) p with
          | error e => simp [hss]
          | ok w2 => simp [hss]
      | timeT =>
        cases rs with
        | true => rfl
        | false =>
          cases hss : setScalar FieldType.timeT p with
          | error e => simp [hss]
          | ok w2 => simp [hss]
      | boolT =>
        cases rs with
        | true => rfl
        | false =>
          cases hss : setScalar FieldType.boolT p with
          | error e => simp [hss]
          | ok w2 => simp [hss]
      | stringT =>
        cases rs with
        | true => rfl
        | false =>
          cases hss : setScalar FieldType.stringT p with
          | error e => simp [hss]
          | ok w2 => simp [hss]
      | blobKeyT =>
        cases rs with
        | true => rfl
        | false =>
          cases hss : setScalar FieldType.blobKeyT p with
          | error e => simp [hss]
          | ok w2 => simp [hss]
      | doubleT =>
        cases rs with
        | true => rfl
        | false =>
          cases hss : setScalar FieldType.doubleT p with
          | error e => simp [hss]
          | ok w2 => simp [hss]
      | keyT =>
        cases rs with
        | true => rfl
        | false =>
          cases hss : setScalar FieldType.keyT p with
          | error e => simp [hss]
          | ok w2 => simp [hss]
      | bytesT =>
        cases rs with
        | true => rfl
        | false =>
          cases hss : setScalar FieldType.bytesT p with
          | error e => simp [hss]
          | ok w2 => simp [hss]
      | unsupportedT tn2 =>
        cases rs with
        | true => rfl
        | false =>
          cases hss : setScalar (FieldType.unsupportedT tn2) p with
          | error e => simp [hss]
          | ok w2 => simp [hss]

/-- The reason string does not depend on the destination record. -/
theorem loadProperty_snd {codec : StructCodec} {vals : List GoVal}
    {p : Property} {rs : Bool} (hlen : vals.length = codec.byIndex.length) :
    (loadProperty codec vals p rs).2 = loadPropErr codec p rs := by
  cases hby : codec.byName p.name with
  | none =>
    rw [loadProperty_noField hby]
    unfold loadPropErr
    rw [hby]
  | some i =>
    have hi : i < codec.byIndex.length := findFieldIdx_lt hby
    have hi2 : i < vals.length := by omega
    obtain ⟨cur, hcur⟩ : ∃ cur, vals[i]? = some cur :=
      ⟨vals[i], List.getElem?_eq_some_iff.mpr ⟨hi2, rfl⟩⟩
    rw [loadProperty_eq_outcome hby hcur, loadPropErr_eq_outcome hby cur]
    cases loadOutcome codec p rs cur <;> rfl

/-- A failed loadProperty leaves the record untouched. -/
theorem loadProperty_fail {codec : StructCodec} {vals : List GoVal}
    {p : Property} {rs : Bool} (h : (loadProperty codec vals p rs).2 ≠ "") :
    (loadProperty codec vals p rs).1 = vals := by
  cases hby : codec.byName p.name with
  | none => rw [loadProperty_noField hby]
  | some i =>
    cases hcur : vals[i]? with
    | none => rw [loadProperty_outOfRange hby hcur]
    | some cur =>
      rw [loadProperty_eq_outcome hby hcur] at h ⊢
      cases ho : loadOutcome codec p rs cur with
      | error e => rfl
      | ok w =>
        rw [ho] at h
        exact absurd rfl h

/-- loadProperty preserves the record's field count. -/
theorem loadStep_length (codec : StructCodec) (vs : List GoVal) (p : Property) :
    (loadStep codec vs p).length = vs.length := by
  unfold loadStep
  cases hby : codec.byName p.name with
  | none => rw [loadProperty_noField hby]
  | some i =>
    cases hcur : vs[i]? with
    | none => rw [loadProperty_outOfRange hby hcur]
    | some cur =>
      rw [loadProperty_eq_outcome hby hcur]
      cases loadOutcome codec p p.multiple cur with
      | error e => rfl
      | ok w => simp

/-- loadProperty touches no slot other than the resolved one. -/
theorem loadStep_get_other {codec : StructCodec} {vs : List GoVal}
    {p : Property} {j : Nat} (hby : codec.byName p.name ≠ some j) :
    (loadStep codec vs p)[j]? = vs[j]? := by
  unfold loadStep
  cases hb : codec.byName p.name with
  | none => rw [loadProperty_noField hb]
  | some i =>
    have hij : i ≠ j := fun he => hby (he ▸ hb)
    cases hcur : vs[i]? with
    | none => rw [loadProperty_outOfRange hb hcur]
    | some cur =>
      rw [loadProperty_eq_outcome hb hcur]
      cases loadOutcome codec p p.multiple cur with
      | error e => rfl
      | ok w => simp [List.getElem?_set_ne hij]

/-- The resolved slot's evolution depends only on that slot's value. -/
theorem loadStep_get_congr {codec : StructCodec} {p : Property} {i : Nat}
    (hby : codec.byName p.name = some i) (vs1 vs2 : List GoVal)
    (hg : vs1[i]? = vs2[i]?) :
    (loadStep codec vs1 p)[i]? = (loadStep codec vs2 p)[i]? := by
  unfold loadStep
  cases hcur : vs1[i]? with
  | none =>
    have hcur2 : vs2[i]? = none := by rw [← hg]; exact hcur
    rw [loadProperty_outOfRange hby hcur, loadProperty_outOfRange hby hcur2]
    rw [hcur, hcur2]
  | some cur =>
    have hcur2 : vs2[i]? = some cur := by rw [← hg]; exact hcur
    rw [loadProperty_eq_outcome hby hcur, loadProperty_eq_outcome hby hcur2]
    cases loadOutcome codec p p.multiple cur with
    | error e => exact hg
    | ok w =>
      obtain ⟨h1, _⟩ := List.getElem?_eq_some_iff.mp hcur
      obtain ⟨h2, _⟩ := List.getElem?_eq_some_iff.mp hcur2
      rw [List.getElem?_set_self h1, List.getElem?_set_self h2]

/-- The record structPLS.Load builds is the left fold of the per-property
updates, independent of the (fieldName, reason) bookkeeping. -/
theorem structLoadLoop_fst (codec : StructCodec) :
    ∀ (props : List Property) (vals : List GoVal) (fn rs : String),
    (structLoadLoop codec vals fn rs props).1 = props.foldl (loadStep codec) vals := by
  intro props
  induction props with
  | nil => intro vals fn rs; rfl
  | cons p ps ih =>
    intro vals fn rs
    simp only [structLoadLoop]
    by_cases h : (loadProperty codec vals p p.multiple).2 ≠ ""
    · rw [if_pos h, List.foldl_cons, ih]
      rfl
    · rw [if_neg h, List.foldl_cons, ih]
      rfl

theorem foldl_loadStep_length (codec : StructCodec) :
    ∀ (props : List Property) (vals : List GoVal),
    (props.foldl (loadStep codec) vals).length = vals.length := by
  intro props
  induction props with
  | nil => intro vals; rfl
  | cons p ps ih =>
    intro vals
    rw [List.foldl_cons, ih, loadStep_length]

/-- A slot's final value is determined by the properties that resolve to
it, in arrival order. -/
theorem foldl_loadStep_filter (codec : StructCodec) (i : Nat) :
    ∀ (props : List Property) (vs1 vs2 : List GoVal), vs1[i]? = vs2[i]? →
    (props.foldl (loadStep codec) vs1)[i]? =
      ((props.filter (fun p => codec.byName p.name == some i)).foldl
        (loadStep codec) vs2)[i]? := by
  intro props
  induction props with
  | nil => intro vs1 vs2 hg; exact hg
  | cons p ps ih =>
    intro vs1 vs2 hg
    by_cases hby : codec.byName p.name = some i
    · have hf : (codec.byName p.name == some i) = true := by simp [hby]
      simp only [List.filter_cons, hf, if_true, List.foldl_cons]
      exact ih _ _ (loadStep_get_congr hby vs1 vs2 hg)
    · have hf : (codec.byName p.name == some i) = false := by
        simp only [beq_eq_false_iff_ne, ne_eq]
        exact hby
      simp only [List.filter_cons, hf, if_false, Bool.false_eq_true, List.foldl_cons]
      exact ih _ _ ((loadStep_get_other hby).trans hg)

/-- Failed properties do not move the record: the fold over all properties
equals the fold over the successfully converting ones. -/
theorem foldl_loadStep_success (codec : StructCodec) :
    ∀ (props : List Property) (vals : List GoVal),
    vals.length = codec.byIndex.length →
    props.foldl (loadStep codec) vals =
      (props.filter (fun p => loadPropErr codec p p.multiple == "")).foldl
        (loadStep codec) vals := by
  intro props
  induction props with
  | nil => intro vals _; rfl
  | cons p ps ih =>
    intro vals hlen
    by_cases herr : loadPropErr codec p p.multiple = ""
    · have hf : (loadPropErr codec p p.multiple == "") = true := by simp [herr]
      simp only [List.filter_cons, hf, if_true, List.foldl_cons]
      exact ih _ (by rw [loadStep_length]; exact hlen)
    · have hstep : loadStep codec vals p = vals := by
        unfold loadStep
        exact loadProperty_fail (by rw [loadProperty_snd hlen]; exact herr)
      have hf : (loadPropErr codec p p.multiple == "") = false := by
        simp only [beq_eq_false_iff_ne, ne_eq]
        exact herr
      simp only [List.filter_cons, hf, if_false, Bool.false_eq_true, List.foldl_cons, hstep]
      exact ih _ hlen

theorem getLast?_cons_shape {α : Type} (a : α) (l : List α) :
    (a :: l).getLast? = match l.getLast? with
      | none => some a
      | some b => some b := by
  induction l generalizing a with
  | nil => rfl
  | cons b bs ih =>
    rw [List.getLast?_cons_cons, ih b]
    cases h : bs.getLast? with
    | none =>
      have hb : bs = [] := by simpa using h
      subst hb
      rfl
    | some x => rfl

/-- The (fieldName, reason) pair structPLS.Load ends with belongs to the
last property whose conversion failed, if any. -/
theorem structLoadLoop_snd (codec : StructCodec) :
    ∀ (props : List Property) (vals : List GoVal) (fn rs : String),
    vals.length = codec.byIndex.length →
    (structLoadLoop codec vals fn rs props).2 =
      match (props.filter (fun p => loadPropErr codec p p.multiple != "")).getLast? with
      | none => (fn, rs)
      | some q => (q.name, loadPropErr codec q q.multiple) := by
  intro props
  induction props with
  | nil => intro vals fn rs _; rfl
  | cons p ps ih =>
    intro vals fn rs hlen
    have hsnd : (loadProperty codec vals p p.multiple).2 = loadPropErr codec p p.multiple :=
      loadProperty_snd hlen
    have hlen2 : ((loadProperty codec vals p p.multiple).1).length = codec.byIndex.length := by
      rw [show (loadProperty codec vals p p.multiple).1 = loadStep codec vals p from rfl,
        loadStep_length]
      exact hlen
    simp only [structLoadLoop]
    by_cases herr : loadPropErr codec p p.multiple ≠ ""
    · rw [if_pos (by rw [hsnd]; exact herr), ih _ _ _ hlen2]
      have hf : (loadPropErr codec p p.multiple != "") = true := by
        simp only [bne_iff_ne, ne_eq]
        exact herr
      simp only [List.filter_cons, hf, if_true]
      rw [getLast?_cons_shape, hsnd]
      cases (ps.filter (fun q => loadPropErr codec q q.multiple != "")).getLast? <;> rfl
    · rw [if_neg (by rw [hsnd]; exact herr), ih _ _ _ hlen2]
      have hf : (loadPropErr codec p p.multiple != "") = false := by
        simp only [bne_eq_false_iff_eq]
        simpa using herr
      simp only [List.filter_cons, hf, if_false, Bool.false_eq_true]

/-! ## Decode-stage lemmas -/

/-- The decoder loop recovers every accepted property from its wire form,
attaching the positional noIndex flag, and closes cleanly. -/
theorem protoPropsLoop_map (b : Bool) (d : String) :
    ∀ (l : List Property), (∀ p ∈ l, propValOk p = true) →
    protoPropsLoop b (l.map (propToPb d)) =
      (l.map (fun p => { p with noIndex := b }), none) := by
  intro l
  induction l with
  | nil => intro _; rfl
  | cons p ps ih =>
    intro hall
    have hp := hall p (by simp)
    have hps := fun q hq => hall q (List.mem_cons_of_mem _ hq)
    rw [List.map_cons, protoPropsLoop, pbToProperty_propToPb hp, ih hps]
    rfl

/-- protoToProperties on an entity whose two lists are wire images of
accepted properties: indexed ones first, then raw ones, no error. -/
theorem protoToProperties_map (d : String) (r : Reference) (eg : List PathElem)
    (A B : List Property) (hA : ∀ p ∈ A, propValOk p = true)
    (hB : ∀ p ∈ B, propValOk p = true) :
    protoToProperties
      { key := r, entityGroup := eg, property := A.map (propToPb d),
        rawProperty := B.map (propToPb d) } =
      (A.map (fun p => { p with noIndex := false }) ++
        B.map (fun p => { p with noIndex := true }), none) := by
  unfold protoToProperties
  rw [protoPropsLoop_map false d A hA]
  simp only
  rw [protoPropsLoop_map true d B hB]

/-- Setting noIndex to the value it already has changes nothing. -/
theorem map_setNoIndex_id (b : Bool) :
    ∀ (l : List Property), (∀ p ∈ l, p.noIndex = b) →
    l.map (fun p => { p with noIndex := b }) = l := by
  intro l
  induction l with
  | nil => intro _; rfl
  | cons p ps ih =>
    intro hall
    have hp : p.noIndex = b := hall p (by simp)
    rw [List.map_cons, ih (fun q hq => hall q (List.mem_cons_of_mem _ hq))]
    cases p with
    | mk nm vl ni mu =>
      simp only at hp
      rw [hp]

/-- loadOutcome at a scalar (non-slice) field with a single-valued property
is the scalar conversion itself. -/
theorem loadOutcome_scalar {codec : StructCodec} {p : Property} {i : Nat}
    {f : FieldCodec} {cur : GoVal} (hby : codec.byName p.name = some i)
    (hbi : codec.byIndex[i]? = some f) (hset : f.settable = true)
    (hns : isSliceT f.ftype = false) :
    loadOutcome codec p false cur = setScalar f.ftype p := by
  obtain ⟨fn, fni, fset, fft⟩ := f
  simp only at hset
  subst hset
  unfold loadOutcome
  simp only [hby, hbi]
  cases fft with
  | sliceT u => simp [isSliceT] at hns
  | _ => rfl

/-- loadOutcome at a slice field appends the converted element to the
slot's current elements (with the codec's element type). -/
theorem loadOutcome_slice {codec : StructCodec} {p : Property} {rs : Bool}
    {i : Nat} {f : FieldCodec} {u u2 : FieldType} {ys : List GoVal} {w : GoVal}
    (hby : codec.byName p.name = some i) (hbi : codec.byIndex[i]? = some f)
    (hset : f.settable = true) (hft : f.ftype = .sliceT u)
    (hss : setScalar u p = .ok w) :
    loadOutcome codec p rs (.slice u2 ys) = .ok (.slice u (ys ++ [w])) := by
  obtain ⟨fn, fni, fset, fft⟩ := f
  simp only at hset hft
  subst hset
  subst hft
  unfold loadOutcome
  simp only [hby, hbi]
  simp [hss]

/-! ## Per-slot decomposition of the emitted properties -/

theorem fieldProps_name {f : FieldCodec} {v : GoVal} {p : Property}
    (hp : p ∈ fieldProps f v) : p.name = f.name := by
  unfold fieldProps at hp
  by_cases h1 : f.name = "-"
  · rw [if_pos h1] at hp
    simp at hp
  · rw [if_neg h1] at hp
    by_cases h2 : f.settable = true
    · rw [if_neg (by simp [h2])] at hp
      cases v with
      | slice t xs =>
        obtain ⟨x, _, rfl⟩ := List.mem_map.mp hp
        rfl
      | key k =>
        cases k with
        | none => simp at hp
        | some k0 =>
          rw [List.mem_singleton] at hp
          subst hp
          rfl
      | _ =>
        rw [List.mem_singleton] at hp
        subst hp
        rfl
    · have h3 : f.settable = false := by
        cases h : f.settable
        · rfl
        · exact absurd h h2
      rw [if_pos (by simp [h3])] at hp
      simp at hp

theorem exists_uniform_singleton (p : Property) :
    ∃ b, ∀ q ∈ [p], q.noIndex = b :=
  ⟨p.noIndex, by simp⟩

theorem mkSaveProp_noIndex_of_fits {u : FieldType} {x : GoVal}
    (h : scalarFits u x = true) (name : String) (ni mult : Bool) :
    (mkSaveProp name ni mult x).noIndex = (if u = .bytesT then true else ni) := by
  cases u <;> cases x <;> simp_all [scalarFits, mkSaveProp]

/-- All properties of one field share one noIndex flag. -/
theorem fieldProps_noIndex_uniform {f : FieldCodec} {v : GoVal}
    (hfit : fieldFits f.ftype v = true) :
    ∃ b, ∀ p ∈ fieldProps f v, p.noIndex = b := by
  unfold fieldProps
  by_cases h1 : f.name = "-"
  · exact ⟨false, by rw [if_pos h1]; simp⟩
  · rw [if_neg h1]
    by_cases h2 : f.settable = true
    · rw [if_neg (by simp [h2])]
      cases v with
      | slice t xs =>
        obtain ⟨hft, _, hall⟩ := fieldFits_slice hfit
        refine ⟨if t = .bytesT then true else f.noIndex, ?_⟩
        intro p hp
        obtain ⟨x, hx, rfl⟩ := List.mem_map.mp hp
        exact mkSaveProp_noIndex_of_fits ((hall x (List.mem_of_mem_filter hx)).1) _ _ _
      | key k =>
        cases k with
        | none => exact ⟨false, by simp⟩
        | some k0 => exact exists_uniform_singleton _
      | _ => exact exists_uniform_singleton _
    · have h3 : f.settable = false := by
        cases h : f.settable
        · rfl
        · exact absurd h h2
      exact ⟨false, by rw [if_pos (by simp [h3])]; simp⟩

/-- Among the record's emitted properties, those resolving to slot i are
exactly the i-th field's block, in order. -/
theorem recordProps_filter_slot (codec : StructCodec) (vals : List GoVal)
    (hnd : (codec.byIndex.map FieldCodec.name).Nodup)
    {i : Nat} {f : FieldCodec} {v : GoVal}
    (hf : codec.byIndex[i]? = some f) (hv : vals[i]? = some v) :
    (recordProps codec vals).filter (fun p => codec.byName p.name == some i) =
      fieldProps f v := by
  have hiz : i < (codec.byIndex.zip vals).length := by
    obtain ⟨h1, _⟩ := List.getElem?_eq_some_iff.mp hf
    obtain ⟨h2, _⟩ := List.getElem?_eq_some_iff.mp hv
    simp only [List.length_zip]
    omega
  have main : ∀ (k n : Nat), k = (codec.byIndex.zip vals).length - n →
      ((((codec.byIndex.zip vals).drop n).map (fun fv => fieldProps fv.1 fv.2)).flatten).filter
        (fun p => codec.byName p.name == some i) =
        if n ≤ i then fieldProps f v else [] := by
    intro k
    induction k with
    | zero =>
      intro n hk
      have hge : (codec.byIndex.zip vals).length ≤ n := by omega
      rw [List.drop_eq_nil_of_le hge]
      rw [if_neg (by omega)]
      rfl
    | succ k ih =>
      intro n hk
      have hlt : n < (codec.byIndex.zip vals).length := by omega
      rw [List.drop_eq_getElem_cons hlt, List.map_cons, List.flatten_cons,
        List.filter_append]
      have hzn : codec.byIndex[n]? = some (codec.byIndex.zip vals)[n].1 ∧
          vals[n]? = some (codec.byIndex.zip vals)[n].2 := by
        have : (codec.byIndex.zip vals)[n]? = some (codec.byIndex.zip vals)[n] :=
          List.getElem?_eq_some_iff.mpr ⟨hlt, rfl⟩
        have h2 := List.getElem?_zip_eq_some.mp this
        exact h2
      have hbyn : codec.byName ((codec.byIndex.zip vals)[n].1).name = some n :=
        findFieldIdx_nodup hzn.1 hnd
      by_cases hni : n = i
      · subst hni
        have hfeq : (codec.byIndex.zip vals)[n].1 = f := by
          rw [hzn.1] at hf
          exact (Option.some.injEq _ _ ▸ hf : _)
        have hveq : (codec.byIndex.zip vals)[n].2 = v := by
          rw [hzn.2] at hv
          exact (Option.some.injEq _ _ ▸ hv : _)
        have hblock : (fieldProps (codec.byIndex.zip vals)[n].1
            (codec.byIndex.zip vals)[n].2).filter
              (fun p => codec.byName p.name == some n) =
            fieldProps (codec.byIndex.zip vals)[n].1 (codec.byIndex.zip vals)[n].2 := by
          rw [List.filter_eq_self]
          intro p hp
          rw [fieldProps_name hp, hbyn]
          simp
        rw [hblock, ih (n + 1) (by omega), if_neg (by omega), if_pos (by omega),
          hfeq, hveq, List.append_nil]
      · have hblock : (fieldProps (codec.byIndex.zip vals)[n].1
            (codec.byIndex.zip vals)[n].2).filter
              (fun p => codec.byName p.name == some i) = [] := by
          rw [List.filter_eq_nil_iff]
          intro p hp
          rw [fieldProps_name hp, hbyn]
          simp
          omega
        rw [hblock, ih (n + 1) (by omega), List.nil_append]
        by_cases hle : n ≤ i
        · rw [if_pos (by omega), if_pos hle]
        · rw [if_neg (by omega), if_neg hle]
  have h0 := main ((codec.byIndex.zip vals).length) 0 (by omega)
  rw [List.drop_zero] at h0
  rw [show recordProps codec vals =
    (((codec.byIndex.zip vals).map (fun fv => fieldProps fv.1 fv.2)).flatten) from rfl]
  rw [h0, if_pos (by omega)]

/-- Splitting a list by a flag and concatenating preserves any filter whose
matches carry one uniform flag value. -/
theorem filter_split_uniform {α : Type} (t : α → Bool) (q : α → Bool)
    (l : List α) (b : Bool) (h : ∀ x ∈ l, t x = true → q x = b) :
    (l.filter q).filter t ++ (l.filter (fun x => !q x)).filter t = l.filter t := by
  cases b with
  | true =>
    have h2 : (l.filter (fun x => !q x)).filter t = [] := by
      rw [List.filter_filter, List.filter_eq_nil_iff]
      intro x hx
      cases ht : t x with
      | false => simp [ht]
      | true => simp [ht, h x hx ht]
    have h1 : (l.filter q).filter t = l.filter t := by
      rw [List.filter_filter]
      apply List.filter_congr
      intro x hx
      cases ht : t x with
      | false => simp [ht]
      | true => simp [ht, h x hx ht]
    rw [h1, h2, List.append_nil]
  | false =>
    have h1 : (l.filter q).filter t = [] := by
      rw [List.filter_filter, List.filter_eq_nil_iff]
      intro x hx
      cases ht : t x with
      | false => simp [ht]
      | true => simp [ht, h x hx ht]
    have h2 : (l.filter (fun x => !q x)).filter t = l.filter t := by
      rw [List.filter_filter]
      apply List.filter_congr
      intro x hx
      cases ht : t x with
      | false => simp [ht]
      | true => simp [ht, h x hx ht]
    rw [h1, h2, List.nil_append]

theorem scalarFits_not_sliceT {t : FieldType} {v : GoVal}
    (h : scalarFits t v = true) : isSliceT t = false := by
  cases t <;> simp_all [scalarFits, isSliceT]

theorem scalarFits_keyNone {t : FieldType}
    (h : scalarFits t (.key none) = true) : t = .keyT := by
  cases t <;> simp_all [scalarFits]

theorem propValOk_mkSaveProp {u : FieldType} {x : GoVal}
    (hsf : scalarFits u x = true) (hnil : isNilKey x = false)
    (name : String) (ni mult : Bool) :
    propValOk (mkSaveProp name ni mult x) = true := by
  cases u <;> cases x <;>
    simp_all [scalarFits, isNilKey, mkSaveProp, hostPV, propValOk]
  case keyT.key k =>
    cases k with
    | none => simp [isNilKey] at hnil
    | some k0 => rfl

/-- Loading a slice field's own block from a slice-valued slot appends the
elements in order. -/
theorem fold_slice_block {codec : StructCodec} {i : Nat} {f : FieldCodec}
    {u : FieldType} (hby : codec.byName f.name = some i)
    (hbi : codec.byIndex[i]? = some f) (hft : f.ftype = .sliceT u)
    (hset : f.settable = true) :
    ∀ (xs : List GoVal) (z : List GoVal) (ys : List GoVal),
    (∀ x ∈ xs, scalarFits u x = true ∧ isNilKey x = false) →
    z[i]? = some (.slice u ys) →
    ((xs.map (mkSaveProp f.name f.noIndex true)).foldl (loadStep codec) z)[i]? =
      some (.slice u (ys ++ xs)) := by
  intro xs
  induction xs with
  | nil =>
    intro z ys _ hz
    simpa using hz
  | cons x xs ih =>
    intro z ys hall hz
    have hx := hall x (by simp)
    have hxs := fun y hy => hall y (List.mem_cons_of_mem _ hy)
    have hss : setScalar u (mkSaveProp f.name f.noIndex true x) = .ok x :=
      setScalar_roundtrip hx.1 hx.2 rfl
    have hstep : loadStep codec z (mkSaveProp f.name f.noIndex true x) =
        z.set i (.slice u (ys ++ [x])) := by
      unfold loadStep
      rw [loadProperty_eq_outcome hby hz,
        loadOutcome_slice hby hbi hset hft hss]
    rw [List.map_cons, List.foldl_cons, hstep]
    have hlen : i < z.length := (List.getElem?_eq_some_iff.mp hz).1
    have hz2 : (z.set i (.slice u (ys ++ [x])))[i]? = some (.slice u (ys ++ [x])) :=
      List.getElem?_set_self (by simpa using hlen)
    rw [ih _ _ hxs hz2]
    simp

/-- Loading a scalar field's single property writes the value. -/
theorem fold_scalar_block {codec : StructCodec} {i : Nat} {f : FieldCodec}
    {v : GoVal} (hby : codec.byName f.name = some i)
    (hbi : codec.byIndex[i]? = some f) (hset : f.settable = true)
    (hfit : scalarFits f.ftype v = true) (hnil : isNilKey v = false)
    (z : List GoVal) (cur : GoVal) (hz : z[i]? = some cur) :
    (([mkSaveProp f.name f.noIndex false v].foldl (loadStep codec) z))[i]? =
      some v := by
  have hss : setScalar f.ftype (mkSaveProp f.name f.noIndex false v) = .ok v :=
    setScalar_roundtrip hfit hnil rfl
  have hm : (mkSaveProp f.name f.noIndex false v).multiple = false := rfl
  have hnm : (mkSaveProp f.name f.noIndex false v).name = f.name := rfl
  have hstep : loadStep codec z (mkSaveProp f.name f.noIndex false v) =
      z.set i v := by
    unfold loadStep
    rw [loadProperty_eq_outcome (by rw [hnm]; exact hby) hz, hm,
      loadOutcome_scalar (by rw [hnm]; exact hby) hbi hset
        (scalarFits_not_sliceT hfit), hss]
  rw [List.foldl_cons, hstep]
  have hlen : i < z.length := (List.getElem?_eq_some_iff.mp hz).1
  have hsv : (z.set i v)[i]? = some v :=
    List.getElem?_set_self (by simpa using hlen)
  simpa using hsv

/-- A scalar field's emitted property converts back without a mismatch. -/
theorem loadPropErr_scalar_ok {codec : StructCodec} {i : Nat} {f : FieldCodec}
    {v : GoVal} (hby : codec.byName f.name = some i)
    (hbi : codec.byIndex[i]? = some f) (hset : f.settable = true)
    (hsf : scalarFits f.ftype v = true) (hnil : isNilKey v = false) :
    loadPropErr codec (mkSaveProp f.name f.noIndex false v)
      (mkSaveProp f.name f.noIndex false v).multiple = "" := by
  have hm : (mkSaveProp f.name f.noIndex false v).multiple = false := rfl
  have hnm : (mkSaveProp f.name f.noIndex false v).name = f.name := rfl
  have hss : setScalar f.ftype (mkSaveProp f.name f.noIndex false v) = .ok v :=
    setScalar_roundtrip hsf hnil rfl
  rw [hm, loadPropErr_eq_outcome (by rw [hnm]; exact hby) (.key none),
    loadOutcome_scalar (by rw [hnm]; exact hby) hbi hset
      (scalarFits_not_sliceT hsf), hss]

/-- A slice field's emitted element property converts back without a
mismatch. -/
theorem loadPropErr_slice_ok {codec : StructCodec} {i : Nat} {f : FieldCodec}
    {u : FieldType} {x : GoVal} (hby : codec.byName f.name = some i)
    (hbi : codec.byIndex[i]? = some f) (hset : f.settable = true)
    (hft : f.ftype = .sliceT u)
    (hsf : scalarFits u x = true) (hnil : isNilKey x = false) :
    loadPropErr codec (mkSaveProp f.name f.noIndex true x)
      (mkSaveProp f.name f.noIndex true x).multiple = "" := by
  have hnm : (mkSaveProp f.name f.noIndex true x).name = f.name := rfl
  have hss : setScalar u (mkSaveProp f.name f.noIndex true x) = .ok x :=
    setScalar_roundtrip hsf hnil rfl
  rw [loadPropErr_eq_outcome (by rw [hnm]; exact hby) (.slice u []),
    loadOutcome_slice (by rw [hnm]; exact hby) hbi hset hft hss]

/-- Every property a well-typed record emits converts back without a
mismatch. -/
theorem recordProp_load_ok {codec : StructCodec} {f : FieldCodec} {v : GoVal}
    {i : Nat} {p : Property} (hby : codec.byName f.name = some i)
    (hbi : codec.byIndex[i]? = some f) (hset : f.settable = true)
    (hfit : fieldFits f.ftype v = true) (hp : p ∈ fieldProps f v) :
    loadPropErr codec p p.multiple = "" := by
  unfold fieldProps at hp
  by_cases h1 : f.name = "-"
  · rw [if_pos h1] at hp
    simp at hp
  · rw [if_neg h1, if_neg (by simp [hset])] at hp
    cases v with
    | slice t xs =>
      obtain ⟨hft, _, hall⟩ := fieldFits_slice hfit
      obtain ⟨x, hx, rfl⟩ := List.mem_map.mp hp
      have hxf := hall x (List.mem_of_mem_filter hx)
      exact loadPropErr_slice_ok hby hbi hset hft hxf.1 hxf.2
    | key k =>
      cases k with
      | none => simp at hp
      | some k0 =>
        rw [List.mem_singleton] at hp
        subst hp
        exact loadPropErr_scalar_ok hby hbi hset (fieldFits_nonslice hfit rfl) rfl
    | _ =>
      rw [List.mem_singleton] at hp
      subst hp
      exact loadPropErr_scalar_ok hby hbi hset (fieldFits_nonslice hfit rfl) rfl

theorem fieldProps_valOk {f : FieldCodec} {v : GoVal} {p : Property}
    (hfit : fieldFits f.ftype v = true) (hp : p ∈ fieldProps f v) :
    propValOk p = true := by
  unfold fieldProps at hp
  by_cases h1 : f.name = "-"
  · rw [if_pos h1] at hp
    simp at hp
  · rw [if_neg h1] at hp
    by_cases h2 : f.settable = true
    · rw [if_neg (by simp [h2])] at hp
      cases v with
      | slice t xs =>
        obtain ⟨_, _, hall⟩ := fieldFits_slice hfit
        obtain ⟨x, hx, rfl⟩ := List.mem_map.mp hp
        have hxf := hall x (List.mem_of_mem_filter hx)
        exact propValOk_mkSaveProp hxf.1 hxf.2 _ _ _
      | key k =>
        cases k with
        | none => simp at hp
        | some k0 =>
          rw [List.mem_singleton] at hp
          subst hp
          exact @propValOk_mkSaveProp f.ftype _ (fieldFits_nonslice hfit rfl) rfl _ _ _
      | _ =>
        rw [List.mem_singleton] at hp
        subst hp
        exact @propValOk_mkSaveProp f.ftype _ (fieldFits_nonslice hfit rfl) rfl _ _ _
    · have h3 : f.settable = false := by
        cases hx : f.settable
        · rfl
        · exact absurd hx h2
      rw [if_pos (by simp [h3])] at hp
      simp at hp

theorem recordProps_valOk {codec : StructCodec} {vals : List GoVal}
    (h : GoodRecord codec vals) :
    ∀ p ∈ recordProps codec vals, propValOk p = true := by
  intro p hp
  unfold recordProps at hp
  obtain ⟨bl, hbl, hpbl⟩ := List.mem_flatten.mp hp
  obtain ⟨fv, hfv, rfl⟩ := List.mem_map.mp hbl
  exact fieldProps_valOk (h.fits fv hfv) hpbl

theorem pairwise_of_trivial {α : Type} {R : α → α → Prop} (h : ∀ a b, R a b) :
    ∀ l : List α, l.Pairwise R := by
  intro l
  induction l with
  | nil => exact List.Pairwise.nil
  | cons a l ih => exact List.Pairwise.cons (fun b _ => h a b) ih

theorem fieldProps_pairwise_mult {f : FieldCodec} {v : GoVal} :
    (fieldProps f v).Pairwise
      (fun p q => p.name = q.name → p.multiple = true ∧ q.multiple = true) := by
  unfold fieldProps
  by_cases h1 : f.name = "-"
  · rw [if_pos h1]
    exact List.Pairwise.nil
  · rw [if_neg h1]
    by_cases h2 : (!f.settable) = true
    · rw [if_pos h2]
      exact List.Pairwise.nil
    · rw [if_neg h2]
      cases v with
      | slice t xs =>
        exact List.pairwise_map.mpr (pairwise_of_trivial (fun a b _ => ⟨rfl, rfl⟩) _)
      | key k =>
        cases k with
        | none => exact List.Pairwise.nil
        | some k0 => exact List.pairwise_singleton _ _
      | _ => exact List.pairwise_singleton _ _

/-- A well-typed record's emitted stream is multiplicity-consistent: two
same-named properties can only be two elements of one slice field, both
flagged multiple. -/
theorem recordProps_multOK {codec : StructCodec} {vals : List GoVal}
    (h : GoodRecord codec vals) : MultOK (recordProps codec vals) := by
  unfold MultOK recordProps
  rw [List.pairwise_flatten]
  constructor
  · intro bl hbl
    obtain ⟨fv, _, rfl⟩ := List.mem_map.mp hbl
    exact fieldProps_pairwise_mult
  · rw [List.pairwise_map]
    have hmf : (codec.byIndex.zip vals).map (fun fv => fv.1.name) =
        codec.byIndex.map FieldCodec.name := by
      rw [show (fun (fv : FieldCodec × GoVal) => fv.1.name) =
        FieldCodec.name ∘ Prod.fst from rfl]
      rw [← List.map_map]
      rw [List.map_fst_zip codec.byIndex vals (by rw [h.len])]
    have hnames : ((codec.byIndex.zip vals).map (fun fv => fv.1.name)).Nodup := by
      rw [hmf]
      exact h.nodup
    have hpair : (codec.byIndex.zip vals).Pairwise
        (fun fv1 fv2 => fv1.1.name ≠ fv2.1.name) := List.pairwise_map.mp hnames
    refine List.Pairwise.imp ?_ hpair
    intro fv1 fv2 hne x hx y hy hxy
    exact absurd (by rw [← fieldProps_name hx, ← fieldProps_name hy]; exact hxy) hne

theorem fieldProps_eq_slice {f : FieldCodec} {t : FieldType} {xs : List GoVal}
    (h1 : ¬ f.name = "-") (h2 : f.settable = true) :
    fieldProps f (.slice t xs) =
      (xs.filter (fun x => !isNilKey x)).map (mkSaveProp f.name f.noIndex true) := by
  unfold fieldProps
  rw [if_neg h1, if_neg (by simp [h2])]

theorem fieldProps_eq_nilKey {f : FieldCodec}
    (h1 : ¬ f.name = "-") (h2 : f.settable = true) :
    fieldProps f (.key none) = [] := by
  unfold fieldProps
  rw [if_neg h1, if_neg (by simp [h2])]

theorem fieldProps_eq_scalar {f : FieldCodec} {v : GoVal}
    (h1 : ¬ f.name = "-") (h2 : f.settable = true)
    (hv : isSliceVal v = false) (hk : isNilKey v = false) :
    fieldProps f v = [mkSaveProp f.name f.noIndex false v] := by
  unfold fieldProps
  rw [if_neg h1, if_neg (by simp [h2])]
  cases v with
  | slice t xs => simp [isSliceVal] at hv
  | key k =>
    cases k with
    | none => simp [isNilKey] at hk
    | some k0 => rfl
  | _ => rfl

/-- Loading a well-typed record's own emitted properties (indexed ones
first, then raw ones) into a fresh record reproduces every field and
reports no mismatch. -/
theorem structLoad_record (codec : StructCodec) (vals : List GoVal)
    (h : GoodRecord codec vals) :
    structLoad codec (zeroRecord codec)
      ((recordProps codec vals).filter (fun p => !p.noIndex) ++
        (recordProps codec vals).filter (fun p => p.noIndex)) = (vals, none) := by
  have hlenz : (zeroRecord codec).length = codec.byIndex.length := by
    unfold zeroRecord
    rw [List.length_map]
  have hsub : ∀ p ∈ (recordProps codec vals).filter (fun p => !p.noIndex) ++
      (recordProps codec vals).filter (fun p => p.noIndex), p ∈ recordProps codec vals := by
    intro p hp
    rcases List.mem_append.mp hp with hx | hx <;> exact List.mem_of_mem_filter hx
  have hok : ∀ p ∈ (recordProps codec vals).filter (fun p => !p.noIndex) ++
      (recordProps codec vals).filter (fun p => p.noIndex),
      loadPropErr codec p p.multiple = "" := by
    intro p hp
    have hpR := hsub p hp
    unfold recordProps at hpR
    obtain ⟨bl, hbl, hpbl⟩ := List.mem_flatten.mp hpR
    obtain ⟨fv, hfv, rfl⟩ := List.mem_map.mp hbl
    obtain ⟨j, hjlt, hj⟩ := List.getElem_of_mem hfv
    have hjz : (codec.byIndex.zip vals)[j]? = some fv :=
      List.getElem?_eq_some_iff.mpr ⟨hjlt, hj⟩
    obtain ⟨hf, hv⟩ := List.getElem?_zip_eq_some.mp hjz
    have hby : codec.byName fv.1.name = some j := findFieldIdx_nodup hf h.nodup
    have hgood := h.fieldsGood fv.1 (List.getElem?_mem hf)
    simp only [Bool.and_eq_true, bne_iff_ne, ne_eq] at hgood
    exact recordProp_load_ok hby hf hgood.2 (h.fits fv hfv) hpbl
  have hfail : ((recordProps codec vals).filter (fun p => !p.noIndex) ++
      (recordProps codec vals).filter (fun p => p.noIndex)).filter
        (fun p => loadPropErr codec p p.multiple != "") = [] := by
    rw [List.filter_eq_nil_iff]
    intro p hp
    simp [hok p hp]
  have hsnd := structLoadLoop_snd codec
    ((recordProps codec vals).filter (fun p => !p.noIndex) ++
      (recordProps codec vals).filter (fun p => p.noIndex))
    (zeroRecord codec) "" "" hlenz
  rw [hfail] at hsnd
  have hfst := structLoadLoop_fst codec
    ((recordProps codec vals).filter (fun p => !p.noIndex) ++
      (recordProps codec vals).filter (fun p => p.noIndex))
    (zeroRecord codec) "" ""
  have hveq : ((recordProps codec vals).filter (fun p => !p.noIndex) ++
      (recordProps codec vals).filter (fun p => p.noIndex)).foldl
        (loadStep codec) (zeroRecord codec) = vals := by
    apply List.ext_getElem?
    intro j
    by_cases hj : j < codec.byIndex.length
    · have hf : codec.byIndex[j]? = some codec.byIndex[j] :=
        List.getElem?_eq_some_iff.mpr ⟨hj, rfl⟩
      have hjv : j < vals.length := by rw [h.len]; exact hj
      have hv : vals[j]? = some vals[j] := List.getElem?_eq_some_iff.mpr ⟨hjv, rfl⟩
      have hby : codec.byName (codec.byIndex[j]).name = some j :=
        findFieldIdx_nodup hf h.nodup
      rw [foldl_loadStep_filter codec j _ (zeroRecord codec) (zeroRecord codec) rfl]
      have hfit : fieldFits (codec.byIndex[j]).ftype vals[j] = true := by
        apply h.fits (codec.byIndex[j], vals[j])
        exact List.getElem?_mem (List.getElem?_zip_eq_some.mpr ⟨hf, hv⟩)
      obtain ⟨b, hb⟩ := fieldProps_noIndex_uniform hfit
      have hslot := recordProps_filter_slot codec vals h.nodup hf hv
      have huni : ∀ p ∈ recordProps codec vals,
          (codec.byName p.name == some j) = true → (!p.noIndex) = !b := by
        intro p hp ht
        have hpm : p ∈ (recordProps codec vals).filter
            (fun p => codec.byName p.name == some j) := List.mem_filter.mpr ⟨hp, ht⟩
        rw [hslot] at hpm
        rw [hb p hpm]
      have hBalt : (recordProps codec vals).filter (fun p => p.noIndex) =
          (recordProps codec vals).filter (fun p => !(!p.noIndex)) :=
        List.filter_congr (fun x _ => by simp)
      have hsplit : (((recordProps codec vals).filter (fun p => !p.noIndex) ++
          (recordProps codec vals).filter (fun p => p.noIndex)).filter
            (fun p => codec.byName p.name == some j)) =
          fieldProps codec.byIndex[j] vals[j] := by
        rw [List.filter_append, hBalt,
          filter_split_uniform (fun p => codec.byName p.name == some j)
            (fun p => !p.noIndex) (recordProps codec vals) (!b) huni, hslot]
      rw [hsplit]
      have hz : (zeroRecord codec)[j]? = some (zeroVal (codec.byIndex[j]).ftype) := by
        unfold zeroRecord
        rw [List.getElem?_map, hf]
        rfl
      have hgood := h.fieldsGood codec.byIndex[j] (List.getElem?_mem hf)
      simp only [Bool.and_eq_true, bne_iff_ne, ne_eq] at hgood
      cases hvv : vals[j] with
      | slice t xs =>
        rw [hvv] at hfit hv
        obtain ⟨hft, _, hall⟩ := fieldFits_slice hfit
        have hflt : xs.filter (fun x => !isNilKey x) = xs :=
          List.filter_eq_self.mpr (fun x hx => by simp [(hall x hx).2])
        rw [fieldProps_eq_slice hgood.1 hgood.2, hflt]
        have hz2 : (zeroRecord codec)[j]? = some (.slice t []) := by
          rw [hz, hft]
          rfl
        rw [fold_slice_block hby hf hft hgood.2 xs (zeroRecord codec) []
          (fun x hx => hall x hx) hz2, hv]
        simp
      | key k =>
        cases k with
        | none =>
          rw [hvv] at hfit hv
          have hkt : (codec.byIndex[j]).ftype = .keyT :=
            scalarFits_keyNone (fieldFits_nonslice hfit rfl)
          rw [fieldProps_eq_nilKey hgood.1 hgood.2]
          rw [List.foldl_nil, hz, hkt, hv]
          rfl
        | some k0 =>
          rw [hvv] at hfit hv
          have hsf := fieldFits_nonslice hfit rfl
          rw [fieldProps_eq_scalar hgood.1 hgood.2 (by rfl) (by rfl),
            fold_scalar_block hby hf hgood.2 hsf (by rfl) (zeroRecord codec) _ hz, hv]
      | _ =>
        rw [hvv] at hfit hv
        have hsf := fieldFits_nonslice hfit (by rfl)
        rw [fieldProps_eq_scalar hgood.1 hgood.2 (by rfl) (by rfl),
          fold_scalar_block hby hf hgood.2 hsf (by rfl) (zeroRecord codec) _ hz, hv]
    · have hge : codec.byIndex.length ≤ j := by omega
      rw [List.getElem?_eq_none (by rw [foldl_loadStep_length, hlenz]; exact hge),
        List.getElem?_eq_none (by rw [h.len]; exact hge)]
  have hr2 : (structLoadLoop codec (zeroRecord codec) "" ""
      ((recordProps codec vals).filter (fun p => !p.noIndex) ++
        (recordProps codec vals).filter (fun p => p.noIndex))).2 = ("", "") := by
    rw [hsnd]
    rfl
  simp only [structLoad]
  rw [hr2, hfst, hveq]
  simp

/-- Full round trip for a well-typed record: the encode succeeds, and
decoding the produced entity into a fresh record reproduces every field
with no error. -/
theorem struct_roundtrip (d : String) (key : Key) (codec : StructCodec)
    (vals : List GoVal) (h : GoodRecord codec vals)
    (hbudget : indexedCount (recordProps codec vals) ≤ maxIndexedProperties) :
    ∃ e, saveStructEntity d key codec vals = .ok e ∧
      loadStructEntity codec (zeroRecord codec) e = (vals, none) := by
  have hRok := recordProps_valOk h
  have hmult := recordProps_multOK h
  refine ⟨{ key := keyToProto d key
            entityGroup := entityGroupOf d key
            property := ((recordProps codec vals).filter (fun p => !p.noIndex)).map (propToPb d)
            rawProperty := ((recordProps codec vals).filter (fun p => p.noIndex)).map (propToPb d) },
    ?_, ?_⟩
  · unfold saveStructEntity
    rw [structSave_ok codec vals h.fits]
    exact propertiesToProto_ok d key _ hRok hmult hbudget
  · have hAok : ∀ p ∈ (recordProps codec vals).filter (fun p => !p.noIndex),
        propValOk p = true := fun p hp => hRok p (List.mem_of_mem_filter hp)
    have hBok : ∀ p ∈ (recordProps codec vals).filter (fun p => p.noIndex),
        propValOk p = true := fun p hp => hRok p (List.mem_of_mem_filter hp)
    have hproto := protoToProperties_map d (keyToProto d key) (entityGroupOf d key)
      _ _ hAok hBok
    have hidA : ((recordProps codec vals).filter (fun p => !p.noIndex)).map
        (fun p => { p with noIndex := false }) =
        (recordProps codec vals).filter (fun p => !p.noIndex) := by
      apply map_setNoIndex_id
      intro p hp
      have := List.of_mem_filter hp
      simpa using this
    have hidB : ((recordProps codec vals).filter (fun p => p.noIndex)).map
        (fun p => { p with noIndex := true }) =
        (recordProps codec vals).filter (fun p => p.noIndex) := by
      apply map_setNoIndex_id
      intro p hp
      exact List.of_mem_filter hp
    rw [hidA, hidB] at hproto
    unfold loadStructEntity
    rw [hproto]
    simp only
    rw [structLoad_record codec vals h]

/-- structPLS.Load on an all-convertible stream: the fold applies and no
error is reported. -/
theorem structLoad_success (codec : StructCodec) (z : List GoVal)
    (props : List Property) (hlen : z.length = codec.byIndex.length)
    (hok : ∀ p ∈ props, loadPropErr codec p p.multiple = "") :
    structLoad codec z props = (props.foldl (loadStep codec) z, none) := by
  have hfail : props.filter (fun p => loadPropErr codec p p.multiple != "") = [] := by
    rw [List.filter_eq_nil_iff]
    intro p hp
    simp [hok p hp]
  have hsnd := structLoadLoop_snd codec props z "" "" hlen
  rw [hfail] at hsnd
  have hr2 : (structLoadLoop codec z "" "" props).2 = ("", "") := by
    rw [hsnd]
    rfl
  have hfst := structLoadLoop_fst codec props z "" ""
  simp only [structLoad]
  rw [hr2, hfst]
  simp

/-- loadOutcome of a multiple-valued property aimed at a non-slice field is
the repeatable-property mismatch. -/
theorem loadOutcome_requireSlice {codec : StructCodec} {p : Property} {i : Nat}
    {f : FieldCodec} {cur : GoVal} (hby : codec.byName p.name = some i)
    (hbi : codec.byIndex[i]? = some f) (hset : f.settable = true)
    (hns : isSliceT f.ftype = false) :
    loadOutcome codec p true cur =
      .error "multiple-valued property requires a slice field type" := by
  obtain ⟨fn, fni, fset, fft⟩ := f
  simp only at hset
  subst hset
  unfold loadOutcome
  simp only [hby, hbi]
  cases fft with
  | sliceT u => simp [isSliceT] at hns
  | _ => rfl

/-- Among the concatenated indexed-then-raw properties, those resolving to
slot i are exactly the i-th field's block, in order. -/
theorem recordProps_append_filter_slot (codec : StructCodec) (vals : List GoVal)
    (h : GoodRecord codec vals) {i : Nat} {f : FieldCodec} {v : GoVal}
    (hf : codec.byIndex[i]? = some f) (hv : vals[i]? = some v) :
    (((recordProps codec vals).filter (fun p => !p.noIndex) ++
        (recordProps codec vals).filter (fun p => p.noIndex)).filter
          (fun p => codec.byName p.name == some i)) = fieldProps f v := by
  have hfit : fieldFits f.ftype v = true := by
    apply h.fits (f, v)
    exact List.getElem?_mem (List.getElem?_zip_eq_some.mpr ⟨hf, hv⟩)
  obtain ⟨b, hb⟩ := fieldProps_noIndex_uniform hfit
  have hslot := recordProps_filter_slot codec vals h.nodup hf hv
  have huni : ∀ p ∈ recordProps codec vals,
      (codec.byName p.name == some i) = true → (!p.noIndex) = !b := by
    intro p hp ht
    have hpm : p ∈ (recordProps codec vals).filter
        (fun p => codec.byName p.name == some i) := List.mem_filter.mpr ⟨hp, ht⟩
    rw [hslot] at hpm
    rw [hb p hpm]
  have hBalt : (recordProps codec vals).filter (fun p => p.noIndex) =
      (recordProps codec vals).filter (fun p => !(!p.noIndex)) :=
    List.filter_congr (fun x _ => by simp)
  rw [List.filter_append, hBalt,
    filter_split_uniform (fun p => codec.byName p.name == some i)
      (fun p => !p.noIndex) (recordProps codec vals) (!b) huni, hslot]

/-- A resolved property name is the resolved field's name. -/
theorem byName_name {codec : StructCodec} {n : String} {i : Nat} {f : FieldCodec}
    (hby : codec.byName n = some i) (hf : codec.byIndex[i]? = some f) :
    f.name = n := by
  have hgen : ∀ (l : List FieldCodec) (n : String) (i : Nat),
      findFieldIdx n l = some i → ∀ g, l[i]? = some g → g.name = n := by
    intro l
    induction l with
    | nil => intro n i h g hg; simp [findFieldIdx] at h
    | cons x xs ih =>
      intro n i h g hg
      rw [findFieldIdx] at h
      by_cases hx : (x.name == n) = true
      · rw [if_pos hx] at h
        have h0 : i = 0 := by
          injection h with h
          omega
        subst h0
        have hxg : x = g := by simpa using hg
        subst hxg
        simpa using hx
      · rw [if_neg hx] at h
        cases hfs : findFieldIdx n xs with
        | none => rw [hfs] at h; exact absurd h (by simp)
        | some j =>
          rw [hfs] at h
          have hji : j + 1 = i := by simpa using h
          subst hji
          exact ih n j hfs g (by simpa using hg)
  exact hgen codec.byIndex n i hby f hf

/-! ## Map-path encoder lemmas -/

theorem valueToProto_ok {x : GoVal} (hx : elemValOk x = true)
    (hnil : isNilKey x = false) (d name : String) (mult : Bool) :
    valueToProto d name x mult = .ok (goValPb d name mult x) := by
  cases x with
  | key k =>
    cases k with
    | none => simp [isNilKey] at hnil
    | some k0 => rfl
  | slice t xs => simp [elemValOk] at hx
  | unsupported tn => simp [elemValOk] at hx
  | _ => rfl

/-- The slice loop of nvToProto distributes the non-nil elements over the
indexed and raw lists by element type, in order. -/
theorem nvSliceLoop_ok (d tn name : String) : ∀ (xs : List GoVal) (e : EntityProto),
    (∀ x ∈ xs, elemValOk x = true) →
    nvSliceLoop d tn name e xs =
      .ok { e with
        property := e.property ++
          ((xs.filter (fun el => !isNilKey el && !(el.type == FieldType.bytesT))).map
            (goValPb d name true)),
        rawProperty := e.rawProperty ++
          ((xs.filter (fun el => el.type == FieldType.bytesT)).map
            (goValPb d name true)) } := by
  intro xs
  induction xs with
  | nil =>
    intro e _
    simp [nvSliceLoop]
  | cons x rest ih =>
    intro e hall
    have hx := hall x (by simp)
    have hrest := fun y hy => hall y (List.mem_cons_of_mem _ hy)
    by_cases hnil : isNilKey x = true
    · obtain rfl := isNilKey_true hnil
      rw [show nvSliceLoop d tn name e (GoVal.key none :: rest) =
        nvSliceLoop d tn name e rest from rfl]
      rw [ih e hrest]
      simp [List.filter_cons, isNilKey, GoVal.type]
    · have hnil2 : isNilKey x = false := by
        cases hh : isNilKey x
        · rfl
        · exact absurd hh hnil
      rw [show nvSliceLoop d tn name e (x :: rest) =
          nvSliceLoop d tn name (addProperty e (goValPb d name true x) x) rest from by
        rw [nvSliceLoop, valueToProto_ok hx hnil2]]
      rw [ih _ hrest]
      unfold addProperty
      by_cases hbt : x.type = FieldType.bytesT
      · rw [if_pos hbt]
        simp [List.filter_cons, hnil2, hbt, List.append_assoc]
      · rw [if_neg hbt]
        have hbt2 : (x.type == FieldType.bytesT) = false := by
          simp only [beq_eq_false_iff_ne, ne_eq]
          exact hbt
        simp [List.filter_cons, hnil2, hbt2, List.append_assoc]

/-- The entry loop of nvToProto accumulates each entry's indexed and raw
contributions, in entry order. -/
theorem nvLoop_ok (d tn : String) : ∀ (nv : List NameValue) (e : EntityProto),
    (∀ x ∈ nv, mapValOk x.value = true) →
    nvLoop d tn e nv = .ok { e with
      property := e.property ++ (nv.map (entryIndexedPbs d)).flatten,
      rawProperty := e.rawProperty ++ (nv.map (entryRawPbs d)).flatten } := by
  intro nv
  induction nv with
  | nil =>
    intro e _
    simp [nvLoop]
  | cons x rest ih =>
    intro e hall
    obtain ⟨xn, xv⟩ := x
    have hx : mapValOk xv = true := hall ⟨xn, xv⟩ (by simp)
    have hrest := fun y hy => hall y (List.mem_cons_of_mem _ hy)
    cases xv with
    | slice t elems =>
      have helems : ∀ y ∈ elems, elemValOk y = true := by
        intro y hy
        have hx2 := hx
        simp only [mapValOk, List.all_eq_true] at hx2
        exact hx2 y hy
      simp only [nvLoop]
      rw [nvSliceLoop_ok d tn xn elems e helems]
      simp only
      rw [ih _ hrest]
      simp [entryIndexedPbs, entryRawPbs, List.append_assoc]
    | key k =>
      cases k with
      | none =>
        simp only [nvLoop]
        rw [show valueToProto d xn (.key none) false = .error nilKeyErrStr from rfl]
        simp only [nilKeyErrStr, reduceIte]
        rw [ih _ hrest]
        simp [entryIndexedPbs, entryRawPbs]
      | some k0 =>
        simp only [nvLoop]
        rw [valueToProto_ok (by rfl) (by rfl)]
        simp only
        rw [ih _ hrest]
        simp [entryIndexedPbs, entryRawPbs, addProperty, GoVal.type, List.append_assoc]
    | unsupported tn2 => simp [mapValOk, elemValOk] at hx
    | _ =>
      simp only [nvLoop]
      rw [valueToProto_ok (by rfl) (by rfl)]
      simp only
      rw [ih _ hrest]
      simp [entryIndexedPbs, entryRawPbs, addProperty, GoVal.type, List.append_assoc]

/-! ## Wrappers for the whole-encode entry points -/

/-- The streaming encoder rejects a stream whose indexed-property count
exceeds the limit. -/
theorem propertiesToProto_limit (d : String) (key : Key) (src : List Property)
    (hok : ∀ p ∈ src, propValOk p = true) (hmult : MultOK src)
    (hgt : indexedCount src > maxIndexedProperties) :
    propertiesToProto d key src = .error "datastore: too many indexed properties" := by
  have h := encLoop_limit d src {} hok (fun q _ => Or.inl rfl) hmult
    (by simp) (by simpa using hgt)
  unfold propertiesToProto
  rw [h]

/-- The streaming encoder rejects any stream holding an unrecorded
multiplicity violation. -/
theorem propertiesToProto_mult_violation (d : String) (key : Key) (src : List Property)
    (hok : ∀ p ∈ src, propValOk p = true)
    (hbudget : indexedCount src ≤ maxIndexedProperties)
    (hbad : MultBad [] src) :
    ∃ n, propertiesToProto d key src = .error (multipleErrMsg n) := by
  obtain ⟨n, h⟩ := encLoop_mult_violation d src {} hok (by simpa using hbudget) hbad
  exact ⟨n, by unfold propertiesToProto; rw [h]⟩

/-- A same-named pair not both flagged multiple is a multiplicity
violation. -/
theorem MultBad_of_pair {l1 l2 l3 : List Property} {p q : Property}
    (hname : p.name = q.name) (hnb : p.multiple = false ∨ q.multiple = false) :
    MultBad [] (l1 ++ p :: l2 ++ q :: l3) :=
  Or.inr ⟨l1, p, l2, q, l3, rfl, hname, hnb⟩

/-- nvToProto succeeds when the accumulated indexed properties stay within
the limit; the raw properties are not counted. -/
theorem nvToProto_ok (d : String) (key : Key) (tn : String) (nv : List NameValue)
    (hok : ∀ x ∈ nv, mapValOk x.value = true)
    (hle : ((nv.map (entryIndexedPbs d)).flatten).length ≤ maxIndexedProperties) :
    nvToProto d key tn nv = .ok
      { key := keyToProto d key, entityGroup := entityGroupOf d key,
        property := (nv.map (entryIndexedPbs d)).flatten,
        rawProperty := (nv.map (entryRawPbs d)).flatten } := by
  simp only [nvToProto]
  rw [nvLoop_ok d tn nv _ hok]
  simp only [List.nil_append]
  rw [if_neg (by omega)]

/-- nvToProto fails with the limit error when the accumulated indexed
properties exceed the limit, however many raw properties there are. -/
theorem nvToProto_limit (d : String) (key : Key) (tn : String) (nv : List NameValue)
    (hok : ∀ x ∈ nv, mapValOk x.value = true)
    (hgt : ((nv.map (entryIndexedPbs d)).flatten).length > maxIndexedProperties) :
    nvToProto d key tn nv = .error "datastore: too many indexed properties" := by
  simp only [nvToProto]
  rw [nvLoop_ok d tn nv _ hok]
  simp only [List.nil_append]
  rw [if_pos (by omega)]

/-- Exceeding the limit on a well-typed record fails the whole struct
encode. -/
theorem saveStructEntity_limit (d : String) (key : Key) (codec : StructCodec)
    (vals : List GoVal) (h : GoodRecord codec vals)
    (hgt : indexedCount (recordProps codec vals) > maxIndexedProperties) :
    saveStructEntity d key codec vals = .error "datastore: too many indexed properties" := by
  unfold saveStructEntity
  rw [structSave_ok codec vals h.fits]
  exact propertiesToProto_limit d key _ (recordProps_valOk h) (recordProps_multOK h) hgt

/-! ## Replicated-stream counting -/

/-- Any two entries of a replicated stream are consistently multiple when
the replicated property is flagged multiple. -/
theorem MultOK_replicate {p : Property} (hm : p.multiple = true) (n : Nat) :
    MultOK (List.replicate n p) := by
  unfold MultOK
  induction n with
  | zero => exact List.Pairwise.nil
  | succ k ih =>
    rw [List.replicate_succ]
    refine List.Pairwise.cons ?_ ih
    intro q hq _
    rw [(List.mem_replicate.mp hq).2]
    exact ⟨hm, hm⟩

/-- Every entry of a replicated indexed stream counts toward the limit. -/
theorem indexedCount_replicate {p : Property} (h : p.noIndex = false) (n : Nat) :
    indexedCount (List.replicate n p) = n := by
  unfold indexedCount
  induction n with
  | zero => rfl
  | succ k ih =>
    rw [List.replicate_succ, List.filter_cons]
    simp only [h, Bool.not_false, if_true, List.length_cons, ih]

/-! ## Map-decoder ordering and the no-variant case -/

/-- The map loop over a concatenation is the two loops in sequence. -/
theorem loadMapLoop_append (xs ys : List PbProperty) : ∀ (m : DsMap) (err : Option String),
    loadMapLoop m err (xs ++ ys) =
      loadMapLoop (loadMapLoop m err xs).1 (loadMapLoop m err xs).2 ys := by
  induction xs with
  | nil => intro m err; rfl
  | cons x xs ih =>
    intro m err
    simp only [List.cons_append, loadMapLoop]
    exact ih _ _

/-- The map-entry variant switch returns nil on a property with no
populated value variant. -/
theorem pbMapResult_noVariant {p : PbProperty} (h : noVariant p = true) :
    pbMapResult p = .ok none := by
  obtain ⟨nm, v, mn, mu⟩ := p
  obtain ⟨i64, bo, st, db, rf⟩ := v
  simp only [noVariant, Bool.and_eq_true, Option.isNone_iff_eq_none] at h
  obtain ⟨⟨⟨⟨h1, h2⟩, h3⟩, h4⟩, h5⟩ := h
  subst h1 h2 h3 h4 h5
  rfl

/-- The streaming decoder's variant switch reports the internal error on a
property with no populated value variant. -/
theorem pbValueToPropValue_noVariant {p : PbProperty} (h : noVariant p = true) :
    pbValueToPropValue p = .error noValueErrMsg := by
  obtain ⟨nm, v, mn, mu⟩ := p
  obtain ⟨i64, bo, st, db, rf⟩ := v
  simp only [noVariant, Bool.and_eq_true, Option.isNone_iff_eq_none] at h
  obtain ⟨⟨⟨⟨h1, h2⟩, h3⟩, h4⟩, h5⟩ := h
  subst h1 h2 h3 h4 h5
  rfl

/-! ## The claims -/

/-- C1: for every structured record whose fields are within the supported
type universe (a well-typed record under its codec, within the indexed
limit), encoding under a key and decoding the resulting entity back into a
fresh record of the same type reproduces the record field-for-field. -/
theorem C1_struct_roundtrip (d : String) (key : Key) (codec : StructCodec)
    (vals : List GoVal) (h : GoodRecord codec vals)
    (hbudget : indexedCount (recordProps codec vals) ≤ maxIndexedProperties) :
    ∃ e, saveStructEntity d key codec vals = .ok e ∧
      loadStructEntity codec (zeroRecord codec) e = (vals, none) :=
  struct_roundtrip d key codec vals h hbudget

theorem C1_struct_roundtrip_witness :
    ∃ e, saveStructEntity "app" exKey rtCodec rtVals = .ok e ∧
      loadStructEntity rtCodec (zeroRecord rtCodec) e = (rtVals, none) :=
  C1_struct_roundtrip "app" exKey rtCodec rtVals
    ⟨by decide, by decide, by decide, by decide⟩ (by decide)

/-- C2: when at least one property of a struct decode fails to match, the
loop still processes every property (every successfully converting one is
applied to the destination, in order), and one aggregated error is returned
naming the record type, the last offending property's field name and that
property's reason. -/
theorem C2_last_mismatch_aggregated (codec : StructCodec) (z : List GoVal)
    (props : List Property) (q : Property)
    (hlen : z.length = codec.byIndex.length)
    (hlast : (props.filter (fun p => loadPropErr codec p p.multiple != "")).getLast? = some q) :
    structLoad codec z props =
      ((props.filter (fun p => loadPropErr codec p p.multiple == "")).foldl
          (loadStep codec) z,
        some (.fieldMismatch codec.typeName q.name
          (loadPropErr codec q q.multiple))) := by
  have hmem : q ∈ props.filter (fun p => loadPropErr codec p p.multiple != "") :=
    List.mem_of_mem_getLast? (by rw [hlast]; exact rfl)
  have hne : loadPropErr codec q q.multiple ≠ "" := by
    have := List.of_mem_filter hmem
    simpa using this
  have hsnd := structLoadLoop_snd codec props z "" "" hlen
  rw [hlast] at hsnd
  have hfst := structLoadLoop_fst codec props z "" ""
  simp only [structLoad]
  rw [hsnd, hfst, foldl_loadStep_success codec props z hlen]
  simp [hne]

theorem C2_last_mismatch_aggregated_witness :
    structLoad c2Codec [GoVal.int64 0] c2Props =
      ([GoVal.int64 5],
        some (.fieldMismatch "main.U" "Nope" "no such struct field")) := by
  have h := C2_last_mismatch_aggregated c2Codec [GoVal.int64 0] c2Props c2Bad rfl rfl
  rw [h]
  rfl

/-- C3: every encode path (streaming, map-like, struct) fails with the
too-many-indexed-properties error and returns no entity when the indexed
count exceeds the limit, while raw (unindexed) properties never count: a
stream or map within the indexed budget encodes successfully whatever its
raw count. -/
theorem C3_indexed_limit (d : String) (key : Key) :
    (∀ src : List Property, (∀ p ∈ src, propValOk p = true) → MultOK src →
      (indexedCount src > maxIndexedProperties →
        propertiesToProto d key src = .error "datastore: too many indexed properties") ∧
      (indexedCount src ≤ maxIndexedProperties →
        propertiesToProto d key src =
          .ok { key := keyToProto d key,
                entityGroup := entityGroupOf d key,
                property := (src.filter (fun p => !p.noIndex)).map (propToPb d),
                rawProperty := (src.filter (fun p => p.noIndex)).map (propToPb d) })) ∧
    (∀ (tn : String) (nv : List NameValue), (∀ x ∈ nv, mapValOk x.value = true) →
      ((nv.map (entryIndexedPbs d)).flatten.length > maxIndexedProperties →
        nvToProto d key tn nv = .error "datastore: too many indexed properties") ∧
      ((nv.map (entryIndexedPbs d)).flatten.length ≤ maxIndexedProperties →
        ∃ e, nvToProto d key tn nv = .ok e ∧
          e.property = (nv.map (entryIndexedPbs d)).flatten)) ∧
    (∀ (codec : StructCodec) (vals : List GoVal), GoodRecord codec vals →
      indexedCount (recordProps codec vals) > maxIndexedProperties →
      saveStructEntity d key codec vals =
        .error "datastore: too many indexed properties") := by
  refine ⟨?_, ?_, ?_⟩
  · intro src hok hmult
    exact ⟨fun hgt => propertiesToProto_limit d key src hok hmult hgt,
           fun hle => propertiesToProto_ok d key src hok hmult hle⟩
  · intro tn nv hok
    exact ⟨fun hgt => nvToProto_limit d key tn nv hok hgt,
           fun hle => ⟨_, nvToProto_ok d key tn nv hok hle, rfl⟩⟩
  · intro codec vals h hgt
    exact saveStructEntity_limit d key codec vals h hgt

theorem C3_indexed_limit_witness :
    propertiesToProto "app" exKey (List.replicate 20001 limitProp) =
      .error "datastore: too many indexed properties" :=
  (((C3_indexed_limit "app" exKey).1 (List.replicate 20001 limitProp)
      (fun p hp => by rw [(List.mem_replicate.mp hp).2]; rfl)
      (MultOK_replicate rfl 20001)).1
    (by rw [indexedCount_replicate rfl]; decide))

/-- C4: a streaming encode whose source emits two same-named properties
with exactly one of them flagged multiple fails with the
multiplicity-consistency error and returns no entity. -/
theorem C4_multiplicity_xor (d : String) (key : Key) (l1 l2 l3 : List Property)
    (p q : Property)
    (hok : ∀ x ∈ l1 ++ p :: l2 ++ q :: l3, propValOk x = true)
    (hbudget : indexedCount (l1 ++ p :: l2 ++ q :: l3) ≤ maxIndexedProperties)
    (hname : p.name = q.name) (hxor : p.multiple ≠ q.multiple) :
    ∃ n, propertiesToProto d key (l1 ++ p :: l2 ++ q :: l3) =
      .error (multipleErrMsg n) := by
  apply propertiesToProto_mult_violation d key _ hok hbudget
  apply MultBad_of_pair hname
  cases hp : p.multiple
  · exact Or.inl rfl
  · cases hq : q.multiple
    · exact Or.inr rfl
    · rw [hp, hq] at hxor
      exact absurd rfl hxor

theorem C4_multiplicity_xor_witness :
    ∃ n, propertiesToProto "app" exKey ([] ++ c4P :: [] ++ c4Q :: []) =
      .error (multipleErrMsg n) :=
  C4_multiplicity_xor "app" exKey [] [] [] c4P c4Q (by decide) (by decide) rfl
    (by decide)

/-- C10: in the streaming encode, two same-named properties are fatal
unless both are flagged multiple; in particular a same-named pair with both
flags false fails with the multiplicity-consistency error. -/
theorem C10_same_name_both_false (d : String) (key : Key) (l1 l2 l3 : List Property)
    (p q : Property)
    (hok : ∀ x ∈ l1 ++ p :: l2 ++ q :: l3, propValOk x = true)
    (hbudget : indexedCount (l1 ++ p :: l2 ++ q :: l3) ≤ maxIndexedProperties)
    (hname : p.name = q.name)
    (hnb : ¬(p.multiple = true ∧ q.multiple = true)) :
    ∃ n, propertiesToProto d key (l1 ++ p :: l2 ++ q :: l3) =
      .error (multipleErrMsg n) := by
  apply propertiesToProto_mult_violation d key _ hok hbudget
  apply MultBad_of_pair hname
  cases hp : p.multiple
  · exact Or.inl rfl
  · cases hq : q.multiple
    · exact Or.inr rfl
    · exact absurd ⟨hp, hq⟩ hnb

theorem C10_same_name_both_false_witness :
    ∃ n, propertiesToProto "app" exKey ([] ++ c10P :: [] ++ c10Q :: []) =
      .error (multipleErrMsg n) :=
  C10_same_name_both_false "app" exKey [] [] [] c10P c10Q (by decide) (by decide)
    rfl (by decide)

/-- C5 (amended): a wire property with no populated value variant is
handled differently per destination path: the map path silently skips it
(no entry, no error), while the streaming producer feeding the struct path
reports the internal wire-invariant error, which loadEntity surfaces to the
caller; it is never reported as a type mismatch. -/
theorem C5_no_variant_paths (p : PbProperty) (h : noVariant p = true) :
    (∀ m : DsMap, loadMapEntry m p = (m, none)) ∧
    (∀ b : Bool, pbToProperty p b = .error noValueErrMsg) ∧
    (∀ (codec : StructCodec) (vals : List GoVal) (r : Reference) (eg : List PathElem),
      loadStructEntity codec vals
        { key := r, entityGroup := eg, property := [p], rawProperty := [] } =
        (vals, some (.other noValueErrMsg))) := by
  have hpv : pbValueToPropValue p = .error noValueErrMsg := pbValueToPropValue_noVariant h
  refine ⟨?_, ?_, ?_⟩
  · intro m
    unfold loadMapEntry
    rw [pbMapResult_noVariant h]
  · intro b
    unfold pbToProperty
    rw [hpv]
  · intro codec vals r eg
    have hp : pbToProperty p false = .error noValueErrMsg := by
      unfold pbToProperty
      rw [hpv]
    have hs : structLoad codec vals [] = (vals, none) := by
      simp [structLoad, structLoadLoop]
    simp only [loadStructEntity, protoToProperties, protoPropsLoop, hp, hs]

/-- A wire property with no populated value variant is silently skipped on
the map path: loadMap leaves the map unchanged and reports no error. -/
theorem C5_no_variant_counterexample :
    noVariant cexPb = true ∧
    loadMap [] { key := exRef, entityGroup := [], property := [cexPb],
                 rawProperty := [] } = ([], none) :=
  ⟨rfl, rfl⟩

theorem C5_no_variant_witness :
    loadMapEntry [("a", GoVal.int64 1)] cexPb = ([("a", GoVal.int64 1)], none) :=
  (C5_no_variant_paths cexPb (by decide)).1 [("a", GoVal.int64 1)]

/-- C6 (amended): the repeatable-property mismatch fires in the opposite
direction from the claim: a multiple-valued property aimed at a non-slice
field is the mismatch, while a property without the multiple flag that
targets a non-byte-array slice field is appended to the slice without any
mismatch. -/
theorem C6_repeatable_amended (codec : StructCodec) (vals : List GoVal)
    (p : Property) (i : Nat) (f : FieldCodec)
    (hby : codec.byName p.name = some i) (hbi : codec.byIndex[i]? = some f)
    (hset : f.settable = true) :
    (∀ cur, vals[i]? = some cur → isSliceT f.ftype = false → p.multiple = true →
      loadProperty codec vals p p.multiple =
        (vals, "multiple-valued property requires a slice field type")) ∧
    (∀ u w u2 ys, f.ftype = .sliceT u → setScalar u p = .ok w →
      vals[i]? = some (.slice u2 ys) →
      loadProperty codec vals p p.multiple =
        (vals.set i (.slice u (ys ++ [w])), "")) := by
  constructor
  · intro cur hcur hns hm
    rw [hm, loadProperty_eq_outcome hby hcur,
      loadOutcome_requireSlice hby hbi hset hns]
  · intro u w u2 ys hft hss hcur
    rw [loadProperty_eq_outcome hby hcur,
      loadOutcome_slice hby hbi hset hft hss]

/-- A property with multiple absent (false) aimed at a non-byte-array slice
field is appended to the slice, not recorded as a mismatch. -/
theorem C6_repeatable_counterexample :
    c6Prop.multiple = false ∧
    loadProperty c6Codec [GoVal.slice .int64T []] c6Prop c6Prop.multiple =
      ([GoVal.slice .int64T [.int64 7]], "") :=
  ⟨rfl, rfl⟩

theorem C6_repeatable_witness :
    loadProperty c6ScalarCodec [GoVal.int64 0] c6MultProp c6MultProp.multiple =
      ([GoVal.int64 0], "multiple-valued property requires a slice field type") :=
  (C6_repeatable_amended c6ScalarCodec [GoVal.int64 0] c6MultProp 0
    ⟨"A", false, true, .int64T⟩ rfl rfl rfl).1 (GoVal.int64 0) rfl rfl rfl

/-- C7: a non-byte-array slice field of length N encodes to exactly N
properties under the field's name, all flagged multiple, carrying the
elements' values in original order; folding exactly those N properties back
into the record with an empty slice at the field yields the N elements in
the same order. -/
theorem C7_slice_roundtrip (codec : StructCodec) (i : Nat) (f : FieldCodec)
    (u : FieldType) (xs : List GoVal)
    (hby : codec.byName f.name = some i) (hbi : codec.byIndex[i]? = some f)
    (hname : ¬ f.name = "-") (hset : f.settable = true) (hft : f.ftype = .sliceT u)
    (hxs : ∀ x ∈ xs, scalarFits u x = true ∧ isNilKey x = false) :
    fieldProps f (.slice u xs) = xs.map (mkSaveProp f.name f.noIndex true) ∧
    (fieldProps f (.slice u xs)).length = xs.length ∧
    (∀ p ∈ fieldProps f (.slice u xs), p.name = f.name ∧ p.multiple = true) ∧
    (fieldProps f (.slice u xs)).map Property.value = xs.map hostPV ∧
    (∀ z : List GoVal, z[i]? = some (.slice u []) →
      ((fieldProps f (.slice u xs)).foldl (loadStep codec) z)[i]? =
        some (.slice u xs)) := by
  have hfe : fieldProps f (.slice u xs) = xs.map (mkSaveProp f.name f.noIndex true) := by
    rw [fieldProps_eq_slice hname hset]
    congr 1
    apply List.filter_eq_self.mpr
    intro x hx
    simp [(hxs x hx).2]
  refine ⟨hfe, ?_, ?_, ?_, ?_⟩
  · rw [hfe, List.length_map]
  · intro p hp
    rw [hfe] at hp
    obtain ⟨x, hx, rfl⟩ := List.mem_map.mp hp
    exact ⟨rfl, rfl⟩
  · rw [hfe, List.map_map]
    exact List.map_congr_left (fun x _ => rfl)
  · intro z hz
    rw [hfe]
    have hfold := fold_slice_block hby hbi hft hset xs z [] hxs hz
    simpa using hfold

theorem C7_slice_roundtrip_witness :
    fieldProps c7F (.slice .int64T [.int64 1, .int64 2]) =
      [GoVal.int64 1, GoVal.int64 2].map (mkSaveProp c7F.name c7F.noIndex true) ∧
    ((fieldProps c7F (.slice .int64T [.int64 1, .int64 2])).foldl (loadStep c6Codec)
        [GoVal.slice .int64T []])[0]? =
      some (.slice .int64T [.int64 1, .int64 2]) := by
  have h := C7_slice_roundtrip c6Codec 0 c7F .int64T [.int64 1, .int64 2]
    rfl rfl (by decide) rfl rfl (by decide)
  exact ⟨h.1, h.2.2.2.2 [GoVal.slice .int64T []] rfl⟩

/-- C8: a nil Key value is silently skipped on every encode path: the
single-value converter signals it with the internal nil-key marker, the
struct saver emits nothing for it, the map loops drop the entry or element
and continue, and the streaming encoder appends no wire property and
continues with only its seen-names record updated. -/
theorem C8_nil_key_skipped (d tn name : String) (ni mult : Bool) (st : EncState)
    (e : EntityProto) (rest : List NameValue) (elems : List GoVal) :
    valueToProto d name (.key none) mult = .error nilKeyErrStr ∧
    saveStructProperty name ni mult (.key none) = .ok none ∧
    nvLoop d tn e (⟨name, .key none⟩ :: rest) = nvLoop d tn e rest ∧
    nvSliceLoop d tn name e (.key none :: elems) = nvSliceLoop d tn name e elems ∧
    (st.prevMultiple.lookup name = none →
      encStep d st { name := name, value := .key none, noIndex := ni, multiple := mult } =
        .ok { st with prevMultiple := (name, mult) :: st.prevMultiple }) := by
  refine ⟨rfl, rfl, rfl, rfl, ?_⟩
  intro h
  simp [encStep, h, encStepBody, propValueToPb]

theorem C8_nil_key_skipped_witness :
    encStep "app" {}
        { name := "K", value := .key none, noIndex := false, multiple := false } =
      .ok { prevMultiple := [("K", false)] } :=
  (C8_nil_key_skipped "app" "t" "K" false false {}
    { key := exRef, entityGroup := [] } [] []).2.2.2.2 rfl

/-- C9: a decoded entity's properties are presented as the indexed
properties in original order followed by the raw properties in original
order, on the streaming/struct path (protoToProperties pushes the indexed
list then the raw list, preserving each list's order) and on the map path
(loadMap is one loop over the concatenation). -/
theorem C9_indexed_then_raw (d : String) :
    (∀ (src : EntityProto) (A B : List Property) (e2 : Option String),
      protoPropsLoop false src.property = (A, none) →
      protoPropsLoop true src.rawProperty = (B, e2) →
      protoToProperties src = (A ++ B, e2)) ∧
    (∀ (r : Reference) (eg : List PathElem) (A B : List Property),
      (∀ p ∈ A, propValOk p = true) → (∀ p ∈ B, propValOk p = true) →
      protoToProperties
        { key := r, entityGroup := eg,
          property := A.map (propToPb d), rawProperty := B.map (propToPb d) } =
        (A.map (fun p => { p with noIndex := false }) ++
          B.map (fun p => { p with noIndex := true }), none)) ∧
    (∀ (m : DsMap) (e : EntityProto),
      loadMap m e = loadMapLoop m none (e.property ++ e.rawProperty)) := by
  refine ⟨?_, ?_, ?_⟩
  · intro src A B e2 h1 h2
    unfold protoToProperties
    rw [h1]
    simp only
    rw [h2]
  · intro r eg A B hA hB
    exact protoToProperties_map d r eg A B hA hB
  · intro m e
    unfold loadMap
    rw [loadMapLoop_append]

theorem C9_indexed_then_raw_witness :
    protoToProperties c9Entity = (c9A ++ c9B, none) :=
  (C9_indexed_then_raw "app").1 c9Entity c9A c9B none rfl rfl

end Datastore
